import Mathlib

/-!
# Readout: memory pages pool, RAW data header, slicer

A shallow embedding of `src/MemoryPagesPool.cxx` / `src/MemoryPagesPool.h`, of the header
structures of `src/RAWDataHeader.h` and of the slicer declared in `src/DataBlockAggregator.h`.

* `size_t` values and addresses are natural numbers; every `size_t` computation of the
  source is reduced modulo `2^64` at the place where the source computes it.
* `nullptr` is the address `0`.
* `throw __LINE__` is `Except.error` carrying the line number.
* A method that changes the pool returns its result together with the pool afterwards.
-/

namespace Readout

/-- Number of values of a `size_t` (64-bit). -/
def sizeMod : Nat := 18446744073709551616

/-! ## The free list -/

/-- Modelled from the spec: the class `AliceO2::Common::Fifo<void *>`, declared in
`Common/Fifo.h` of the Common library. The spec describes the free list as a bounded
single-producer/single-consumer queue of capacity `numberOfPages`, with a non-blocking dequeue
that reports emptiness. `size` is the capacity given to the constructor and `items` the queued
addresses, oldest first. -/
structure Fifo where
  size : Nat
  items : List Nat
deriving DecidableEq, Repr

namespace Fifo

/-- The queue built by `Fifo(size)`: empty, with room for `size` items. -/
def new (size : Nat) : Fifo := ⟨size, []⟩

/-- The call `push(item)`: appends at the back; when the queue is full the item is not stored. -/
def push (q : Fifo) (item : Nat) : Fifo :=
  if q.items.length < q.size then ⟨q.size, q.items ++ [item]⟩ else q

/-- The call `pop(item)`: removes the oldest item, or reports that there is none. -/
def pop (q : Fifo) : Option (Nat × Fifo) :=
  match q.items with
  | [] => none
  | x :: rest => some (x, ⟨q.size, rest⟩)

/-- The call `getNumberOfUsedSlots()`. -/
def getNumberOfUsedSlots (q : Fifo) : Nat := q.items.length

end Fifo

/-! ## The pool -/

/-- The data members of `class MemoryPagesPool`. The release callback is represented by an
optional identifier of the function given to the constructor. -/
structure MemoryPagesPool where
  pagesAvailable : Fifo
  numberOfPages : Nat
  pageSize : Nat
  baseBlockAddress : Nat
  baseBlockSize : Nat
  firstPageAddress : Nat
  lastPageAddress : Nat
  releaseBaseBlockCallback : Option Nat
deriving DecidableEq, Repr

/-- The address `&((char *)baseBlockAddress)[firstPageOffset + i * pageSize]`: the index is a
`size_t` expression, the address a 64-bit pointer. -/
def pageAddress (baseBlockAddress firstPageOffset pageSize i : Nat) : Nat :=
  (baseBlockAddress + (firstPageOffset + i * pageSize) % sizeMod) % sizeMod

/-- The local state of the constructor loop: the fifo, `firstPageAddress` and `ptr`. -/
structure FillState where
  fifo : Fifo
  first : Nat
  ptr : Nat
deriving DecidableEq, Repr

/-- One iteration of the constructor loop (lines 46-52) for index `i`. -/
def fillStep (baseBlockAddress firstPageOffset pageSize : Nat) (s : FillState) (i : Nat) :
    FillState :=
  let ptr := pageAddress baseBlockAddress firstPageOffset pageSize i
  { fifo := s.fifo.push ptr, first := if i = 0 then ptr else s.first, ptr := ptr }

/-- The constructor loop `for (size_t i = 0; i < numberOfPages; i++)`. -/
def fillPages (baseBlockAddress firstPageOffset pageSize numberOfPages : Nat) (s : FillState) :
    FillState :=
  (List.range numberOfPages).foldl (fillStep baseBlockAddress firstPageOffset pageSize) s

namespace MemoryPagesPool

/-- The constructor `MemoryPagesPool::MemoryPagesPool` (lines 13-54). `uninit` is the
indeterminate value that the member `firstPageAddress` holds before the loop assigns it. -/
def new (vPageSize vNumberOfPages vBaseAddress vBaseSize : Nat) (vCallback : Option Nat)
    (firstPageOffset : Nat) (uninit : Nat) : Except Nat MemoryPagesPool :=
  let pageSize := vPageSize
  let numberOfPages := vNumberOfPages
  let baseBlockSize := if vBaseSize = 0 then (pageSize * numberOfPages) % sizeMod else vBaseSize
  if firstPageOffset ≥ vBaseSize ∨ vBaseSize = 0 ∨ vNumberOfPages = 0 ∨ vPageSize = 0
      ∨ baseBlockSize = 0 then
    Except.error 33
  else
    let sizeNeeded := (pageSize * numberOfPages + firstPageOffset) % sizeMod
    let numberOfPages :=
      if sizeNeeded > baseBlockSize then (baseBlockSize - firstPageOffset) / pageSize
      else numberOfPages
    let s := fillPages vBaseAddress firstPageOffset pageSize numberOfPages
      { fifo := Fifo.new numberOfPages, first := uninit, ptr := 0 }
    Except.ok
      { pagesAvailable := s.fifo
        numberOfPages := numberOfPages
        pageSize := pageSize
        baseBlockAddress := vBaseAddress
        baseBlockSize := baseBlockSize
        firstPageAddress := s.first
        lastPageAddress := s.ptr
        releaseBaseBlockCallback := vCallback }

/-- The method `getPage` (lines 63-68): the oldest free page, or `nullptr` when there is none. -/
def getPage (self : MemoryPagesPool) : Nat × MemoryPagesPool :=
  match self.pagesAvailable.pop with
  | none => (0, self)
  | some (ptr, q) => (ptr, { self with pagesAvailable := q })

/-- The method `isPageValid` (lines 138-149). -/
def isPageValid (self : MemoryPagesPool) (pagePtr : Nat) : Bool :=
  if pagePtr < self.firstPageAddress then false
  else if pagePtr > self.lastPageAddress then false
  else if (pagePtr - self.firstPageAddress) % self.pageSize ≠ 0 then false
  else true

/-- The method `releasePage` (lines 70-78). -/
def releasePage (self : MemoryPagesPool) (address : Nat) : Except Nat Unit × MemoryPagesPool :=
  if !self.isPageValid address then (Except.error 73, self)
  else (Except.ok (), { self with pagesAvailable := self.pagesAvailable.push address })

/-- The method `getPageSize`. -/
def getPageSize (self : MemoryPagesPool) : Nat := self.pageSize

/-- The method `getTotalNumberOfPages`. -/
def getTotalNumberOfPages (self : MemoryPagesPool) : Nat := self.numberOfPages

/-- The method `getNumberOfPagesAvailable`. -/
def getNumberOfPagesAvailable (self : MemoryPagesPool) : Nat :=
  self.pagesAvailable.getNumberOfUsedSlots

/-- The method `getBaseBlockAddress`. -/
def getBaseBlockAddress (self : MemoryPagesPool) : Nat := self.baseBlockAddress

/-- The method `getBaseBlockSize`. -/
def getBaseBlockSize (self : MemoryPagesPool) : Nat := self.baseBlockSize

end MemoryPagesPool

/-! ## Data block containers -/

/-- Modelled from the spec: the sizes and constants declared in `Common/DataBlock.h` of the
Common library: the block type `H_BASE`, `sizeof(DataBlockHeaderBase)`,
`sizeof(DataBlock)`, the sentinels for unspecified ids, and the number of values of the type of
the header field `dataSize` (`0` for a field that stores any value). -/
structure DataBlockLayout where
  H_BASE : Nat
  sizeofDataBlockHeaderBase : Nat
  sizeofDataBlock : Nat
  undefinedBlockId : Nat
  undefinedLinkId : Nat
  undefinedEquipmentId : Nat
  undefinedTimeframeId : Nat
  dataSizeMod : Nat
deriving DecidableEq, Repr

/-- The header fields that `getNewDataBlockContainer` assigns. -/
structure DataBlockHeaderBase where
  blockType : Nat
  headerSize : Nat
  dataSize : Nat
  blockId : Nat
  linkId : Nat
  equipmentId : Nat
  timeframeId : Nat
deriving DecidableEq, Repr

/-- The structure `DataBlock`: a header and the address of the payload. -/
structure DataBlock where
  header : DataBlockHeaderBase
  data : Nat
deriving DecidableEq, Repr

/-- Modelled from the spec: the class `DataBlockContainer`, declared in
`Common/DataBlockContainer.h` of the Common library: a handle to one page that carries the page address,
the page size and a release action. `page` is the address captured by the release action,
`dataSize` the size given to the constructor and `block` the content written at the page when
the container was made. -/
structure DataBlockContainer where
  page : Nat
  dataSize : Nat
  block : DataBlock
deriving DecidableEq, Repr

namespace MemoryPagesPool

/-- Lines 107-127 of `getNewDataBlockContainer`: fill the header at the beginning of the page
and make the container. -/
def fillContainer (L : DataBlockLayout) (self : MemoryPagesPool) (newPage : Nat) :
    DataBlockContainer :=
  { page := newPage
    dataSize := self.pageSize
    block :=
      { header :=
          { blockType := L.H_BASE
            headerSize := L.sizeofDataBlockHeaderBase
            dataSize :=
              ((self.pageSize + sizeMod - L.sizeofDataBlock % sizeMod) % sizeMod) % L.dataSizeMod
            blockId := L.undefinedBlockId
            linkId := L.undefinedLinkId
            equipmentId := L.undefinedEquipmentId
            timeframeId := L.undefinedTimeframeId }
        data := (newPage + L.sizeofDataBlock) % sizeMod } }

/-- The method `getNewDataBlockContainer` (lines 91-136). `std::make_shared` does not return
null, so the branch of lines 128-131 is never taken. -/
def getNewDataBlockContainer (L : DataBlockLayout) (self : MemoryPagesPool) (newPage : Nat) :
    Except Nat (Option DataBlockContainer) × MemoryPagesPool :=
  if newPage = 0 then
    match self.getPage with
    | (page, pool) =>
      if page = 0 then (Except.ok none, pool)
      else (Except.ok (some (pool.fillContainer L page)), pool)
  else if !self.isPageValid newPage then (Except.error 103, self)
  else (Except.ok (some (self.fillContainer L newPage)), self)

/-- The release action of a container made by this pool (lines 120-123):
`this->releasePage(newPage)`. -/
def releaseCallback (self : MemoryPagesPool) (bc : DataBlockContainer) :
    Except Nat Unit × MemoryPagesPool :=
  self.releasePage bc.page

end MemoryPagesPool

/-! ## A user of the pool

The pages a user holds: addresses obtained from `getPage` and containers obtained from
`getNewDataBlockContainer(nullptr)`. A user gives back only what it holds. -/

/-- A pool together with what its user has checked out. -/
structure User where
  pool : MemoryPagesPool
  pages : List Nat
  containers : List DataBlockContainer
deriving DecidableEq, Repr

/-- The calls of a user that holds to the discipline: `getPage()`,
`getNewDataBlockContainer(nullptr)`, `releasePage(address)` of a page it holds, and dropping the
last reference to a container it holds. -/
inductive Call where
  | getPage
  | getNewDataBlockContainer
  | releasePage (address : Nat)
  | dropContainer (bc : DataBlockContainer)
deriving DecidableEq, Repr

namespace User

/-- The user of a pool from which nothing is checked out. -/
def fresh (pool : MemoryPagesPool) : User := { pool := pool, pages := [], containers := [] }

/-- Number of checked-out pages. -/
def checkedOut (u : User) : Nat := u.pages.length + u.containers.length

/-- Every page of the pool the user knows of: the free ones, then the ones it holds. -/
def held (u : User) : List Nat :=
  u.pool.pagesAvailable.items ++ u.pages ++ u.containers.map DataBlockContainer.page

/-- One call. The result is `none` when the user does not hold what it gives back, or when the
call throws. -/
def step (L : DataBlockLayout) (u : User) : Call → Option User
  | Call.getPage =>
    match u.pool.getPage with
    | (ptr, pool) =>
      some { u with pool := pool, pages := if ptr = 0 then u.pages else ptr :: u.pages }
  | Call.getNewDataBlockContainer =>
    match u.pool.getNewDataBlockContainer L 0 with
    | (Except.ok (some bc), pool) => some { u with pool := pool, containers := bc :: u.containers }
    | (Except.ok none, pool) => some { u with pool := pool }
    | (Except.error _, _) => none
  | Call.releasePage address =>
    if address ∈ u.pages then
      match u.pool.releasePage address with
      | (Except.ok _, pool) => some { u with pool := pool, pages := u.pages.erase address }
      | (Except.error _, _) => none
    else none
  | Call.dropContainer bc =>
    if bc ∈ u.containers then
      match u.pool.releaseCallback bc with
      | (Except.ok _, pool) => some { u with pool := pool, containers := u.containers.erase bc }
      | (Except.error _, _) => none
    else none

/-- A sequence of calls, from left to right. -/
def run (L : DataBlockLayout) (u : User) : List Call → Option User
  | [] => some u
  | c :: cs =>
    match u.step L c with
    | none => none
    | some v => v.run L cs

end User

/-! ## Arbitrary sequences of `getPage` and `releasePage` -/

/-- A call of `getPage` or of `releasePage` with any address. -/
inductive RawCall where
  | getPage
  | releasePage (address : Nat)
deriving DecidableEq, Repr

namespace MemoryPagesPool

/-- One call on the pool; `none` when the call throws. The second component is the address
returned by `getPage`. -/
def rawStep (self : MemoryPagesPool) : RawCall → Option (MemoryPagesPool × Option Nat)
  | RawCall.getPage =>
    match self.getPage with
    | (ptr, pool) => some (pool, some ptr)
  | RawCall.releasePage address =>
    match self.releasePage address with
    | (Except.ok _, pool) => some (pool, none)
    | (Except.error _, _) => none

/-- A sequence of calls that complete without throwing: the pool afterwards and the addresses
returned by the `getPage` calls, in order. -/
def rawRun (self : MemoryPagesPool) : List RawCall → Option (MemoryPagesPool × List Nat)
  | [] => some (self, [])
  | c :: cs =>
    match self.rawStep c with
    | none => none
    | some (pool, r) =>
      match pool.rawRun cs with
      | none => none
      | some (last, rs) => some (last, r.toList ++ rs)

/-- The call `getPage` repeated `k` times: the returned addresses, in order, and the pool
afterwards. -/
def getPages (self : MemoryPagesPool) : Nat → List Nat × MemoryPagesPool
  | 0 => ([], self)
  | k + 1 =>
    match self.getPage with
    | (ptr, pool) =>
      match pool.getPages k with
      | (ptrs, last) => (ptr :: ptrs, last)

end MemoryPagesPool

/-! ## Concrete pools -/

/-- The pool made from `pageSize = 4096`, `numberOfPages = 4`, a block of `16384` bytes at
address `65536` and `firstPageOffset = 8192`: two pages fit. -/
def offsetPool : MemoryPagesPool :=
  { pagesAvailable := ⟨2, [73728, 77824]⟩
    numberOfPages := 2
    pageSize := 4096
    baseBlockAddress := 65536
    baseBlockSize := 16384
    firstPageAddress := 73728
    lastPageAddress := 77824
    releaseBaseBlockCallback := none }

/-- The pool made from `pageSize = 4096`, `numberOfPages = 4`, a block of `16384` bytes at
address `65536` and `firstPageOffset = 0`. -/
def fourPagesPool : MemoryPagesPool :=
  { pagesAvailable := ⟨4, [65536, 69632, 73728, 77824]⟩
    numberOfPages := 4
    pageSize := 4096
    baseBlockAddress := 65536
    baseBlockSize := 16384
    firstPageAddress := 65536
    lastPageAddress := 77824
    releaseBaseBlockCallback := none }

/-- The pool made from `pageSize = 4096`, `numberOfPages = 4`, a block of `16384` bytes at the
null address and `firstPageOffset = 0`: the first page is at the null address. -/
def nullBasePool : MemoryPagesPool :=
  { pagesAvailable := ⟨4, [0, 4096, 8192, 12288]⟩
    numberOfPages := 4
    pageSize := 4096
    baseBlockAddress := 0
    baseBlockSize := 16384
    firstPageAddress := 0
    lastPageAddress := 12288
    releaseBaseBlockCallback := none }

/-- The pool made from `pageSize = 3 * 2^61`, `numberOfPages = 8`, a block of 1 byte at address
`4096` and `firstPageOffset = 0`: `sizeNeeded = 3 * 2^64` wraps to `0`, so all 8 pages are
kept, at offsets `i * 3 * 2^61` reduced modulo `2^64`. -/
def wrappedPool : MemoryPagesPool :=
  { pagesAvailable := ⟨8, [4096, 6917529027641085952, 13835058055282167808,
      2305843009213698048, 9223372036854779904, 16140901064495861760, 4611686018427392000,
      11529215046068473856]⟩
    numberOfPages := 8
    pageSize := 6917529027641081856
    baseBlockAddress := 4096
    baseBlockSize := 1
    firstPageAddress := 4096
    lastPageAddress := 11529215046068473856
    releaseBaseBlockCallback := none }

/-- A data block layout for the examples: a header of 48 bytes followed by a pointer. -/
def exampleLayout : DataBlockLayout :=
  { H_BASE := 0
    sizeofDataBlockHeaderBase := 48
    sizeofDataBlock := 56
    undefinedBlockId := 18446744073709551615
    undefinedLinkId := 255
    undefinedEquipmentId := 65535
    undefinedTimeframeId := 18446744073709551615
    dataSizeMod := 4294967296 }

/-! ## Destruction and arbitrary calls -/

namespace MemoryPagesPool

/-- The destructor `MemoryPagesPool::~MemoryPagesPool` (lines 56-61): the invocations of the
release callback it makes, each as the callback and its argument. -/
def destructor (self : MemoryPagesPool) : List (Nat × Nat) :=
  match self.releaseBaseBlockCallback with
  | some callback => if self.baseBlockAddress ≠ 0 then [(callback, self.baseBlockAddress)] else []
  | none => []

end MemoryPagesPool

/-- A call of any public method other than the destructor, with its arguments. -/
inductive PoolCall where
  | getPage
  | releasePage (address : Nat)
  | getNewDataBlockContainer (newPage : Nat)
  | dropContainer (bc : DataBlockContainer)
  | isPageValid (page : Nat)
  | getPageSize
  | getTotalNumberOfPages
  | getNumberOfPagesAvailable
  | getBaseBlockAddress
  | getBaseBlockSize
deriving DecidableEq, Repr

namespace MemoryPagesPool

/-- The pool after one call, whether the call returns or throws. -/
def after (L : DataBlockLayout) (self : MemoryPagesPool) : PoolCall → MemoryPagesPool
  | PoolCall.getPage => self.getPage.2
  | PoolCall.releasePage address => (self.releasePage address).2
  | PoolCall.getNewDataBlockContainer newPage => (self.getNewDataBlockContainer L newPage).2
  | PoolCall.dropContainer bc => (self.releaseCallback bc).2
  | PoolCall.isPageValid _ => self
  | PoolCall.getPageSize => self
  | PoolCall.getTotalNumberOfPages => self
  | PoolCall.getNumberOfPagesAvailable => self
  | PoolCall.getBaseBlockAddress => self
  | PoolCall.getBaseBlockSize => self

/-- The pool after a sequence of calls, from left to right. -/
def afterAll (L : DataBlockLayout) (self : MemoryPagesPool) (calls : List PoolCall) :
    MemoryPagesPool :=
  calls.foldl (after L) self

end MemoryPagesPool

/-! ## More concrete pools -/

/-- The pool made from `pageSize = 1`, `numberOfPages = 4`, a block of 4 bytes at address
`65536` and `firstPageOffset = 0`. -/
def tinyPagesPool : MemoryPagesPool :=
  { pagesAvailable := ⟨4, [65536, 65537, 65538, 65539]⟩
    numberOfPages := 4
    pageSize := 1
    baseBlockAddress := 65536
    baseBlockSize := 4
    firstPageAddress := 65536
    lastPageAddress := 65539
    releaseBaseBlockCallback := none }

/-! ## RAW data header

A transcription of `src/RAWDataHeader.h`. Each header structure is a sequence of anonymous
unions; each union overlays a word with a struct of bit-fields. The header requires a little
endian architecture (lines 29-31): the members of a struct are allocated from bit 0 of the word
upwards, in declaration order. -/

/-- The names of the word members of the header structures. -/
inductive Word where
  | word0 | word1 | word2 | word3 | word4 | word5 | word6 | word7
  | word8 | word9 | word10 | word11 | word12 | word13 | word14 | word15
deriving DecidableEq, Repr

/-- The names of the members of the structs that overlay the words, in `RAWDataHeaderV2`,
`RAWDataHeaderV3` and `RAWDataHeaderV4`. -/
inductive Field where
  | version | headerSize | blockLength
  | feeId | priorityBit | zero2
  | offsetNextPacket | memorySize
  | linkId | zero0 | packetCounter | cruId | dpwId
  | triggerOrbit | heartbeatOrbit
  | zero5 | zero4
  | triggerBC | zero11_0 | heartbeatBC | zero11_1
  | triggerType
  | zero9 | zero8
  | detectorField | par
  | stopBit | pagesCounter | zero14
  | zero13 | zero12
  | pageCnt | stop | zero3
deriving DecidableEq, Repr

/-- One anonymous union of a header structure: the name of its word member, the width of the
type of the word, the default value of the word, and the members of the overlaid struct in
declaration order, each with its width in bits. -/
structure WordDecl where
  word : Word
  bits : Nat
  defaultValue : Nat
  members : List (Field × Nat)
deriving DecidableEq, Repr

/-- The structure `RAWDataHeaderV2` (lines 59-103): four 64-bit words. -/
def RAWDataHeaderV2 : List WordDecl :=
  [ { word := Word.word0, bits := 64, defaultValue := 0x0004ffffff000002,
      members := [(Field.version, 8), (Field.blockLength, 16), (Field.feeId, 16),
        (Field.linkId, 8), (Field.headerSize, 8), (Field.zero0, 8)] },
    { word := Word.word1, bits := 64, defaultValue := 0x0,
      members := [(Field.triggerOrbit, 32), (Field.heartbeatOrbit, 32)] },
    { word := Word.word2, bits := 64, defaultValue := 0x0,
      members := [(Field.triggerBC, 12), (Field.triggerType, 32), (Field.heartbeatBC, 12),
        (Field.zero2, 8)] },
    { word := Word.word3, bits := 64, defaultValue := 0x0,
      members := [(Field.pageCnt, 16), (Field.stop, 8), (Field.detectorField, 16),
        (Field.par, 16), (Field.zero3, 8)] } ]

/-- The structure `RAWDataHeaderV3` (lines 105-235): sixteen 32-bit words. -/
def RAWDataHeaderV3 : List WordDecl :=
  [ { word := Word.word3, bits := 32, defaultValue := 0x00004003,
      members := [(Field.version, 8), (Field.headerSize, 8), (Field.blockLength, 16)] },
    { word := Word.word2, bits := 32, defaultValue := 0x00ffffff,
      members := [(Field.feeId, 16), (Field.priorityBit, 8), (Field.zero2, 8)] },
    { word := Word.word1, bits := 32, defaultValue := 0x0,
      members := [(Field.offsetNextPacket, 16), (Field.memorySize, 16)] },
    { word := Word.word0, bits := 32, defaultValue := 0x0,
      members := [(Field.linkId, 8), (Field.zero0, 24)] },
    { word := Word.word7, bits := 32, defaultValue := 0xffffffff,
      members := [(Field.triggerOrbit, 32)] },
    { word := Word.word6, bits := 32, defaultValue := 0xffffffff,
      members := [(Field.heartbeatOrbit, 32)] },
    { word := Word.word5, bits := 32, defaultValue := 0x0, members := [(Field.zero5, 32)] },
    { word := Word.word4, bits := 32, defaultValue := 0x0, members := [(Field.zero4, 32)] },
    { word := Word.word11, bits := 32, defaultValue := 0x0,
      members := [(Field.triggerBC, 12), (Field.zero11_0, 4), (Field.heartbeatBC, 12),
        (Field.zero11_1, 4)] },
    { word := Word.word10, bits := 32, defaultValue := 0x0,
      members := [(Field.triggerType, 32)] },
    { word := Word.word9, bits := 32, defaultValue := 0x0, members := [(Field.zero9, 32)] },
    { word := Word.word8, bits := 32, defaultValue := 0x0, members := [(Field.zero8, 32)] },
    { word := Word.word15, bits := 32, defaultValue := 0x0,
      members := [(Field.detectorField, 16), (Field.par, 16)] },
    { word := Word.word14, bits := 32, defaultValue := 0x0,
      members := [(Field.stopBit, 8), (Field.pagesCounter, 16), (Field.zero14, 8)] },
    { word := Word.word13, bits := 32, defaultValue := 0x0, members := [(Field.zero13, 32)] },
    { word := Word.word12, bits := 32, defaultValue := 0x0, members := [(Field.zero12, 32)] } ]

/-- The structure `RAWDataHeaderV4` (lines 237-371): sixteen 32-bit words. -/
def RAWDataHeaderV4 : List WordDecl :=
  [ { word := Word.word3, bits := 32, defaultValue := 0x00004004,
      members := [(Field.version, 8), (Field.headerSize, 8), (Field.blockLength, 16)] },
    { word := Word.word2, bits := 32, defaultValue := 0x00ffffff,
      members := [(Field.feeId, 16), (Field.priorityBit, 8), (Field.zero2, 8)] },
    { word := Word.word1, bits := 32, defaultValue := 0x0,
      members := [(Field.offsetNextPacket, 16), (Field.memorySize, 16)] },
    { word := Word.word0, bits := 32, defaultValue := 0xffffffff,
      members := [(Field.linkId, 8), (Field.packetCounter, 8), (Field.cruId, 12),
        (Field.dpwId, 4)] },
    { word := Word.word7, bits := 32, defaultValue := 0xffffffff,
      members := [(Field.triggerOrbit, 32)] },
    { word := Word.word6, bits := 32, defaultValue := 0xffffffff,
      members := [(Field.heartbeatOrbit, 32)] },
    { word := Word.word5, bits := 32, defaultValue := 0x0, members := [(Field.zero5, 32)] },
    { word := Word.word4, bits := 32, defaultValue := 0x0, members := [(Field.zero4, 32)] },
    { word := Word.word11, bits := 32, defaultValue := 0x0,
      members := [(Field.triggerBC, 12), (Field.zero11_0, 4), (Field.heartbeatBC, 12),
        (Field.zero11_1, 4)] },
    { word := Word.word10, bits := 32, defaultValue := 0x0,
      members := [(Field.triggerType, 32)] },
    { word := Word.word9, bits := 32, defaultValue := 0x0, members := [(Field.zero9, 32)] },
    { word := Word.word8, bits := 32, defaultValue := 0x0, members := [(Field.zero8, 32)] },
    { word := Word.word15, bits := 32, defaultValue := 0x0,
      members := [(Field.detectorField, 16), (Field.par, 16)] },
    { word := Word.word14, bits := 32, defaultValue := 0x0,
      members := [(Field.stopBit, 8), (Field.pagesCounter, 16), (Field.zero14, 8)] },
    { word := Word.word13, bits := 32, defaultValue := 0x0, members := [(Field.zero13, 32)] },
    { word := Word.word12, bits := 32, defaultValue := 0x0, members := [(Field.zero12, 32)] } ]

/-- The place of a member: the word that holds it, the index of that word in memory order, the
width of the word, and the first bit and the number of bits of the member. -/
structure BitField where
  word : Word
  index : Nat
  bits : Nat
  offset : Nat
  width : Nat
deriving DecidableEq, Repr

/-- The first bit and the width of a member among the members of one struct: members are
allocated upwards from bit 0 in declaration order. -/
def offsetIn (f : Field) : List (Field × Nat) → Option (Nat × Nat)
  | [] => none
  | (g, w) :: rest =>
    if g = f then some (0, w)
    else
      match offsetIn f rest with
      | some (o, w2) => some (o + w, w2)
      | none => none

/-- The place of a member in a header structure: the unions follow one another in memory in
declaration order. -/
def locate (f : Field) : List WordDecl → Option BitField
  | [] => none
  | d :: ds =>
    match offsetIn f d.members with
    | some (o, w) => some { word := d.word, index := 0, bits := d.bits, offset := o, width := w }
    | none =>
      match locate f ds with
      | some b => some { b with index := b.index + 1 }
      | none => none

/-- The mask of the `width` lowest bits. -/
def mask (width : Nat) : Nat := 2 ^ width - 1

/-- Reading a bit-field of a word: shift right, then mask. -/
def getBits (offset width word : Nat) : Nat := (word >>> offset) &&& mask width

/-- Writing a bit-field of a word of `bits` bits: clear the bits of the field, then put in the
value, masked to the width of the field and shifted to its place. -/
def setBits (bits offset width word value : Nat) : Nat :=
  (word &&& (mask bits ^^^ (mask width <<< offset))) ||| ((value &&& mask width) <<< offset)

/-- Reading a member from a header image, the list of its words in memory order. -/
def BitField.read (b : BitField) (image : List Nat) : Nat :=
  getBits b.offset b.width (image.getD b.index 0)

/-- Writing a member into a header image. -/
def BitField.write (b : BitField) (image : List Nat) (value : Nat) : List Nat :=
  image.set b.index (setBits b.bits b.offset b.width (image.getD b.index 0) value)

/-- Reading the member `f` through the layout of a header structure. -/
def readField (decl : List WordDecl) (f : Field) (image : List Nat) : Option Nat :=
  match locate f decl with
  | some b => some (b.read image)
  | none => none

/-- Writing the member `f` through the layout of a header structure. -/
def writeField (decl : List WordDecl) (f : Field) (value : Nat) (image : List Nat) : List Nat :=
  match locate f decl with
  | some b => b.write image value
  | none => image

/-- The image of a header structure that was default-initialised. -/
def defaultImage (decl : List WordDecl) : List Nat := decl.map WordDecl.defaultValue

/-- The members of a header structure, in declaration order. -/
def memberNames : List WordDecl → List Field
  | [] => []
  | d :: ds => d.members.map Prod.fst ++ memberNames ds

/-- A header image for a structure: one word per union, each within the width of its type. -/
def isImage : List WordDecl → List Nat → Bool
  | [], [] => true
  | d :: ds, w :: ws => decide (w < 2 ^ d.bits) && isImage ds ws
  | _, _ => false

/-- Every member name. -/
def allFields : List Field :=
  [Field.version, Field.headerSize, Field.blockLength, Field.feeId, Field.priorityBit,
    Field.zero2, Field.offsetNextPacket, Field.memorySize, Field.linkId, Field.zero0,
    Field.packetCounter, Field.cruId, Field.dpwId, Field.triggerOrbit, Field.heartbeatOrbit,
    Field.zero5, Field.zero4, Field.triggerBC, Field.zero11_0, Field.heartbeatBC,
    Field.zero11_1, Field.triggerType, Field.zero9, Field.zero8, Field.detectorField,
    Field.par, Field.stopBit, Field.pagesCounter, Field.zero14, Field.zero13, Field.zero12,
    Field.pageCnt, Field.stop, Field.zero3]

/-- The member `f`, if the structure has it, lies within its word. -/
def wellPlaced (decl : List WordDecl) (f : Field) : Bool :=
  match locate f decl with
  | some b => decide (b.offset + b.width ≤ b.bits)
  | none => true

/-- The members `f` and `g`, if the structure has both, share no bit. -/
def disjointIn (decl : List WordDecl) (f g : Field) : Bool :=
  match locate f decl, locate g decl with
  | some b, some c =>
    decide (b.index ≠ c.index) || decide (b.offset + b.width ≤ c.offset)
      || decide (c.offset + c.width ≤ b.offset)
  | _, _ => true

/-- Every member lies within its word and no two members share a bit. -/
def wellFormedLayout (decl : List WordDecl) : Bool :=
  allFields.all (fun f =>
    wellPlaced decl f && allFields.all (fun g => decide (f = g) || disjointIn decl f g))

/-- The bits of word `index` that some member of the structure occupies. -/
def coveredBits (decl : List WordDecl) (index : Nat) : List Nat :=
  match decl.get? index with
  | some d =>
    (List.range d.bits).filter (fun k =>
      allFields.any (fun f =>
        match locate f decl with
        | some b => decide (b.index = index) && decide (b.offset ≤ k) &&
            decide (k < b.offset + b.width)
        | none => false))
  | none => []

/-- A record for the examples: a version 4 header of link 5 with some counters set. -/
def exampleRecord : Field → Nat
  | Field.version => 4
  | Field.headerSize => 64
  | Field.blockLength => 8192
  | Field.feeId => 4660
  | Field.linkId => 5
  | Field.cruId => 291
  | Field.dpwId => 1
  | Field.triggerOrbit => 4294967295
  | Field.triggerBC => 3563
  | Field.pagesCounter => 65535
  | _ => 0

/-- Emitting a record: every member of the structure is written with its value in the record,
in declaration order. -/
def emit (decl : List WordDecl) (record : Field → Nat) (image : List Nat) : List Nat :=
  (memberNames decl).foldl (fun img f => writeField decl f (record f) img) image

/-- The members of `RAWDataHeaderV3` other than the reserved bits of its `word0`. -/
def sharedV3V4 : List Field :=
  [Field.version, Field.headerSize, Field.blockLength, Field.feeId, Field.priorityBit,
    Field.offsetNextPacket, Field.memorySize, Field.linkId, Field.triggerOrbit,
    Field.heartbeatOrbit, Field.triggerBC, Field.heartbeatBC, Field.triggerType,
    Field.detectorField, Field.par, Field.stopBit, Field.pagesCounter]

/-! ## The slicer

`src/DataBlockAggregator.h` declares `PartialSlice` and `DataBlockSlicer`; the methods are
defined in `DataBlockAggregator.cxx`. -/

/-- The constant `maxLinks` of `DataBlockSlicer` (line 62). -/
def maxLinks : Nat := 8192

/-- The structure `PartialSlice` (lines 34-38). `linkId` is a `uint8_t` and `tfId` a
`uint64_t`: what is stored in them is reduced to 8 and to 64 bits (see `linkOf` and `tfOf`).
`currentDataSet` refers to the data set being built, the blocks of the slice in order, or is
null. -/
structure PartialSlice where
  linkId : Nat
  tfId : Nat
  currentDataSet : Option (List DataBlockContainer)
deriving DecidableEq, Repr

/-- The data members of `class DataBlockSlicer` (lines 62-66): the slices being built, one per
link, and the queue of the data sets that are complete, oldest first. -/
structure DataBlockSlicer where
  partialSlices : List PartialSlice
  slices : List (List DataBlockContainer)
deriving DecidableEq, Repr

/-- Put the entry of a link in the list of partial slices: in place of the entry of that link
if there is one, else at the end. -/
def putEntry (p : PartialSlice) : List PartialSlice → List PartialSlice
  | [] => [p]
  | q :: qs => if q.linkId = p.linkId then p :: qs else q :: putEntry p qs

namespace DataBlockSlicer

/-- The link id of a block as a `PartialSlice` holds it: the `linkId` of the block header,
converted to `uint8_t`. -/
def linkOf (block : DataBlockContainer) : Nat := block.block.header.linkId % 256

/-- The timeframe id of a block as a `PartialSlice` holds it: the `timeframeId` of the block
header, converted to `uint64_t`. -/
def tfOf (block : DataBlockContainer) : Nat := block.block.header.timeframeId % sizeMod

/-- The slicer built by `DataBlockSlicer()`: no link seen, no slice complete. -/
def new : DataBlockSlicer := { partialSlices := [], slices := [] }

/-- The entry of a link among the partial slices. -/
def entry (self : DataBlockSlicer) (linkId : Nat) : Option PartialSlice :=
  self.partialSlices.find? (fun p => decide (p.linkId = linkId))

/-- The partial slice of a link, if one exists: its timeframe id and its blocks. -/
def partialSlice (self : DataBlockSlicer) (linkId : Nat) :
    Option (Nat × List DataBlockContainer) :=
  match self.entry linkId with
  | some p =>
    match p.currentDataSet with
    | some blocks => some (p.tfId, blocks)
    | none => none
  | none => none

/-- Modelled from the spec: the method `DataBlockSlicer::appendBlock`, declared at line 49 and
defined in `DataBlockAggregator.cxx`. It reads `linkId` and `timeframeId` from the block
header, into the types that `PartialSlice` declares for them. If no partial slice exists for
that link, or the existing one carries a different `timeframeId`, the existing one (if any) is
moved to the back of the completed queue and a fresh partial slice is started with this block;
if the existing slice matches, the block is appended. The result is the number of blocks in the
slice that holds the block. A link beyond the `maxLinks` entries of the mapping is a fatal
error, `none`. -/
def appendBlock (self : DataBlockSlicer) (block : DataBlockContainer) :
    Option (Nat × DataBlockSlicer) :=
  let linkId := linkOf block
  let tfId := tfOf block
  if (self.entry linkId).isNone ∧ maxLinks ≤ self.partialSlices.length then none
  else
    match self.partialSlice linkId with
    | some (tf, blocks) =>
      if tf = tfId then
        some (blocks.length + 1,
          { self with
            partialSlices := putEntry
              { linkId := linkId, tfId := tfId, currentDataSet := some (blocks ++ [block]) }
              self.partialSlices })
      else
        some (1,
          { partialSlices := putEntry
              { linkId := linkId, tfId := tfId, currentDataSet := some [block] }
              self.partialSlices
            slices := self.slices ++ [blocks] })
    | none =>
      some (1,
        { self with
          partialSlices := putEntry
            { linkId := linkId, tfId := tfId, currentDataSet := some [block] }
            self.partialSlices })

end DataBlockSlicer

/-- The bytes of a word of `nbytes` bytes in memory on a little endian host: the least
significant byte first. -/
def wordBytes (nbytes word : Nat) : List Nat :=
  (List.range nbytes).map (fun k => (word >>> (8 * k)) % 256)

/-- The bytes of a header image in memory on a little endian host: the words follow one
another in declaration order. -/
def imageBytes : List WordDecl → List Nat → List Nat
  | d :: ds, w :: ws => wordBytes (d.bits / 8) w ++ imageBytes ds ws
  | _, _ => []

/-- The pool made from `pageSize = 4096`, `numberOfPages = 4`, a block of 100 bytes at address
`65536` and `firstPageOffset = 0`, where the member `firstPageAddress` held 12345 before the
constructor ran: no page fits. -/
def noPagesPool : MemoryPagesPool :=
  { pagesAvailable := ⟨0, []⟩
    numberOfPages := 0
    pageSize := 4096
    baseBlockAddress := 65536
    baseBlockSize := 100
    firstPageAddress := 12345
    lastPageAddress := 0
    releaseBaseBlockCallback := none }

/-! ## Invocations of the release callback -/

namespace MemoryPagesPool

/-- The invocations of the base-block release callback that one call of a method other than
the destructor makes, each as the callback and its argument. The bodies of `getPage` (lines
63-68), `releasePage` (lines 70-78), the getters (lines 80-89), `getNewDataBlockContainer`
(lines 91-136), the release action of a container (lines 120-123, which calls `releasePage`)
and `isPageValid` (lines 138-149) contain no call of `releaseBaseBlockCallback`; its only call
is at line 59, in the destructor. -/
def invoked (_L : DataBlockLayout) (_self : MemoryPagesPool) : PoolCall → List (Nat × Nat)
  | PoolCall.getPage => []
  | PoolCall.releasePage _ => []
  | PoolCall.getNewDataBlockContainer _ => []
  | PoolCall.dropContainer _ => []
  | PoolCall.isPageValid _ => []
  | PoolCall.getPageSize => []
  | PoolCall.getTotalNumberOfPages => []
  | PoolCall.getNumberOfPagesAvailable => []
  | PoolCall.getBaseBlockAddress => []
  | PoolCall.getBaseBlockSize => []

/-- The invocations of the release callback during a sequence of calls, in order. -/
def invokedAll (L : DataBlockLayout) (self : MemoryPagesPool) :
    List PoolCall → List (Nat × Nat)
  | [] => []
  | c :: cs => self.invoked L c ++ (self.after L c).invokedAll L cs

/-- The invocations of the release callback over the life of a pool: during the calls made on
it, then in its destructor. -/
def lifetime (L : DataBlockLayout) (self : MemoryPagesPool) (calls : List PoolCall) :
    List (Nat × Nat) :=
  self.invokedAll L calls ++ (self.afterAll L calls).destructor

end MemoryPagesPool

/-! ## The constructor -/

theorem sizeMod_eq : sizeMod = 18446744073709551616 := rfl

theorem sizeMod_pos : 0 < sizeMod := by decide

theorem Fifo.push_of_lt (q : Fifo) (x : Nat) (h : q.items.length < q.size) :
    q.push x = ⟨q.size, q.items ++ [x]⟩ := by
  simp [Fifo.push, h]

theorem Fifo.push_of_full (q : Fifo) (x : Nat) (h : q.size ≤ q.items.length) : q.push x = q := by
  simp [Fifo.push, Nat.not_lt.mpr h]

theorem fillPages_succ (b o p n : Nat) (s : FillState) :
    fillPages b o p (n + 1) s = fillStep b o p (fillPages b o p n s) n := by
  simp [fillPages, List.range_succ, List.foldl_append]

theorem fillPages_fifo (b o p cap u : Nat) :
    ∀ n, n ≤ cap →
      (fillPages b o p n { fifo := Fifo.new cap, first := u, ptr := 0 }).fifo
        = ⟨cap, (List.range n).map (pageAddress b o p)⟩ := by
  intro n
  induction n with
  | zero => intro _; simp [fillPages, Fifo.new]
  | succ k ih =>
    intro hk
    rw [fillPages_succ]
    have h := ih (Nat.le_of_succ_le hk)
    simp only [fillStep, h]
    rw [Fifo.push_of_lt]
    · simp [List.range_succ]
    · simpa using hk

theorem fillPages_first (b o p cap u : Nat) :
    ∀ n, (fillPages b o p n { fifo := Fifo.new cap, first := u, ptr := 0 }).first
        = if n = 0 then u else pageAddress b o p 0 := by
  intro n
  induction n with
  | zero => simp [fillPages]
  | succ k ih =>
    rw [fillPages_succ]
    simp only [fillStep, ih]
    by_cases hk : k = 0 <;> simp [hk]

theorem fillPages_ptr (b o p cap u : Nat) :
    ∀ n, (fillPages b o p n { fifo := Fifo.new cap, first := u, ptr := 0 }).ptr
        = if n = 0 then 0 else pageAddress b o p (n - 1) := by
  intro n
  cases n with
  | zero => simp [fillPages]
  | succ k =>
    rw [fillPages_succ]
    simp [fillStep]

/-- What a successful construction establishes: the parameter check passed, and every member
has the value computed by lines 18-53. -/
theorem MemoryPagesPool.new_ok {ps n base bs : Nat} {cb : Option Nat} {off u : Nat}
    {pool : MemoryPagesPool} (h : MemoryPagesPool.new ps n base bs cb off u = Except.ok pool) :
    0 < ps ∧ 0 < n ∧ off < bs ∧
    pool.numberOfPages = (if (ps * n + off) % sizeMod > bs then (bs - off) / ps else n) ∧
    pool.pageSize = ps ∧ pool.baseBlockAddress = base ∧ pool.baseBlockSize = bs ∧
    pool.pagesAvailable
      = ⟨pool.numberOfPages, (List.range pool.numberOfPages).map (pageAddress base off ps)⟩ ∧
    pool.firstPageAddress = (if pool.numberOfPages = 0 then u else pageAddress base off ps 0) ∧
    pool.lastPageAddress
      = (if pool.numberOfPages = 0 then 0 else pageAddress base off ps (pool.numberOfPages - 1)) ∧
    pool.releaseBaseBlockCallback = cb := by
  by_cases hbs : bs = 0
  · simp [MemoryPagesPool.new, hbs] at h
  · simp only [MemoryPagesPool.new, if_neg hbs] at h
    by_cases hc : off ≥ bs ∨ bs = 0 ∨ n = 0 ∨ ps = 0 ∨ bs = 0
    · rw [if_pos hc] at h
      cases h
    rw [if_neg hc] at h
    have hps : ps ≠ 0 := fun hz => hc (Or.inr (Or.inr (Or.inr (Or.inl hz))))
    have hn : n ≠ 0 := fun hz => hc (Or.inr (Or.inr (Or.inl hz)))
    have hoff : ¬ off ≥ bs := fun hz => hc (Or.inl hz)
    injection h with h
    subst h
    refine ⟨Nat.pos_of_ne_zero hps, Nat.pos_of_ne_zero hn, Nat.lt_of_not_le hoff, rfl, rfl, rfl,
      rfl, ?_, ?_, ?_, rfl⟩
    · exact fillPages_fifo _ _ _ _ _ _ (Nat.le_refl _)
    · exact fillPages_first _ _ _ _ _ _
    · exact fillPages_ptr _ _ _ _ _ _

theorem offsetPool_new : MemoryPagesPool.new 4096 4 65536 16384 none 8192 0 = Except.ok offsetPool := by
  rfl

theorem fourPagesPool_new :
    MemoryPagesPool.new 4096 4 65536 16384 none 0 0 = Except.ok fourPagesPool := by
  rfl

/-! ## Construction: failure, page count, base block -/

/-- C4: the constructor throws exactly when `pageSize = 0`, `numberOfPages = 0`, `baseSize = 0`
or `firstPageOffset >= baseSize`, and for every other parameter tuple it completes with a
pool. -/
theorem C4_constructor_throws_iff (ps n base bs : Nat) (cb : Option Nat) (off u : Nat) :
    ((∃ line, MemoryPagesPool.new ps n base bs cb off u = Except.error line)
        ↔ (ps = 0 ∨ n = 0 ∨ bs = 0 ∨ off ≥ bs)) ∧
    ((∃ pool, MemoryPagesPool.new ps n base bs cb off u = Except.ok pool)
        ↔ ¬ (ps = 0 ∨ n = 0 ∨ bs = 0 ∨ off ≥ bs)) := by
  by_cases hc : ps = 0 ∨ n = 0 ∨ bs = 0 ∨ off ≥ bs
  · have hthrow : MemoryPagesPool.new ps n base bs cb off u = Except.error 33 := by
      have hc2 : off ≥ bs ∨ bs = 0 ∨ n = 0 ∨ ps = 0
          ∨ (if bs = 0 then (ps * n) % sizeMod else bs) = 0 := by
        rcases hc with h | h | h | h
        · exact Or.inr (Or.inr (Or.inr (Or.inl h)))
        · exact Or.inr (Or.inr (Or.inl h))
        · exact Or.inr (Or.inl h)
        · exact Or.inl h
      simp only [MemoryPagesPool.new]
      rw [if_pos hc2]
    constructor
    · exact ⟨fun _ => hc, fun _ => ⟨33, hthrow⟩⟩
    · constructor
      · rintro ⟨pool, hp⟩
        rw [hthrow] at hp
        cases hp
      · intro hn
        exact absurd hc hn
  · have hbs : bs ≠ 0 := fun h => hc (Or.inr (Or.inr (Or.inl h)))
    have hc2 : ¬ (off ≥ bs ∨ bs = 0 ∨ n = 0 ∨ ps = 0
          ∨ (if bs = 0 then (ps * n) % sizeMod else bs) = 0) := by
      rw [if_neg hbs]
      rintro (h | h | h | h | h)
      · exact hc (Or.inr (Or.inr (Or.inr h)))
      · exact hbs h
      · exact hc (Or.inr (Or.inl h))
      · exact hc (Or.inl h)
      · exact hbs h
    have hok : ∃ pool, MemoryPagesPool.new ps n base bs cb off u = Except.ok pool := by
      simp only [MemoryPagesPool.new]
      rw [if_neg hc2]
      exact ⟨_, rfl⟩
    constructor
    · constructor
      · rintro ⟨line, hl⟩
        obtain ⟨pool, hp⟩ := hok
        rw [hp] at hl
        cases hl
      · intro h
        exact absurd h hc
    · exact ⟨fun _ => hc, fun _ => hok⟩

/-- C5: with `baseSize = 0` (the default argument) the constructor throws at line 33, whatever
the other parameters are, although lines 26-28 compute `baseBlockSize = pageSize *
numberOfPages` for exactly this case: the check of line 31 tests the parameter `vBaseSize`, and
`firstPageOffset >= 0` holds for every offset. In particular `pageSize = 4096`,
`numberOfPages = 4`, `baseSize = 0`, `firstPageOffset = 0` does not make a pool. -/
theorem C5_zero_baseSize_throws (ps n base : Nat) (cb : Option Nat) (off u : Nat) :
    MemoryPagesPool.new ps n base 0 cb off u = Except.error 33 ∧
    MemoryPagesPool.new 4096 4 base 0 cb 0 u = Except.error 33 := by
  constructor <;> simp [MemoryPagesPool.new]

/-- When the size computation of line 37 does not wrap, the pages that are made fit in the base
block. -/
theorem MemoryPagesPool.new_fits {ps n base bs : Nat} {cb : Option Nat} {off u : Nat}
    {pool : MemoryPagesPool} (h : MemoryPagesPool.new ps n base bs cb off u = Except.ok pool)
    (hno : ps * n + off < sizeMod) :
    off + pool.numberOfPages * ps ≤ bs ∧ pool.numberOfPages ≤ n := by
  obtain ⟨hps, _, hoff, hnum, _⟩ := MemoryPagesPool.new_ok h
  rw [Nat.mod_eq_of_lt hno] at hnum
  by_cases hgt : ps * n + off > bs
  · rw [if_pos hgt] at hnum
    rw [hnum]
    have h1 : (bs - off) / ps * ps ≤ bs - off := Nat.div_mul_le_self _ _
    refine ⟨by omega, ?_⟩
    rw [Nat.div_le_iff_le_mul_add_pred hps]
    have h2 : ps * n = n * ps := Nat.mul_comm _ _
    rw [Nat.mul_comm ps n]
    omega
  · rw [if_neg hgt] at hnum
    rw [hnum]
    have h2 : ps * n = n * ps := Nat.mul_comm _ _
    exact ⟨by omega, Nat.le_refl _⟩

/-- C6: when the constructor succeeds and `pageSize * numberOfPages + firstPageOffset` does not
overflow `size_t`, `getTotalNumberOfPages()` is `min(numberOfPages, (baseSize -
firstPageOffset) / pageSize)`, which is the largest `k <= numberOfPages` with
`firstPageOffset + k * pageSize <= baseSize`. -/
theorem C6_page_count_is_largest_fit (ps n base bs : Nat) (cb : Option Nat) (off u : Nat)
    (pool : MemoryPagesPool) (h : MemoryPagesPool.new ps n base bs cb off u = Except.ok pool)
    (hno : ps * n + off < sizeMod) :
    pool.getTotalNumberOfPages = min n ((bs - off) / ps) ∧
    pool.getTotalNumberOfPages ≤ n ∧
    off + pool.getTotalNumberOfPages * ps ≤ bs ∧
    ∀ k, k ≤ n → off + k * ps ≤ bs → k ≤ pool.getTotalNumberOfPages := by
  obtain ⟨hfit, hle⟩ := MemoryPagesPool.new_fits h hno
  obtain ⟨hps, _, hoff, hnum, _⟩ := MemoryPagesPool.new_ok h
  rw [Nat.mod_eq_of_lt hno] at hnum
  have hmax : ∀ k, k ≤ n → off + k * ps ≤ bs → k ≤ pool.numberOfPages := by
    intro k hk hkfit
    by_cases hgt : ps * n + off > bs
    · rw [if_pos hgt] at hnum
      rw [hnum, Nat.le_div_iff_mul_le hps]
      omega
    · rw [if_neg hgt] at hnum
      rw [hnum]
      exact hk
  refine ⟨?_, hle, hfit, hmax⟩
  show pool.numberOfPages = min n ((bs - off) / ps)
  have hdiv : pool.numberOfPages ≤ (bs - off) / ps := by
    rw [Nat.le_div_iff_mul_le hps]
    omega
  have hdiv2 : min n ((bs - off) / ps) ≤ pool.numberOfPages := by
    apply hmax
    · exact Nat.min_le_left _ _
    · have h1 : min n ((bs - off) / ps) * ps ≤ (bs - off) / ps * ps :=
        Nat.mul_le_mul_right _ (Nat.min_le_right _ _)
      have h2 : (bs - off) / ps * ps ≤ bs - off := Nat.div_mul_le_self _ _
      omega
  exact Nat.le_antisymm (Nat.le_min.mpr ⟨hle, hdiv⟩) hdiv2

/-- C6, at `pageSize = 4096`, `numberOfPages = 4`, `baseSize = 16384`, `firstPageOffset = 8192`:
two pages. -/
theorem C6_page_count_is_largest_fit_witness :
    offsetPool.getTotalNumberOfPages = 2 ∧
    offsetPool.getTotalNumberOfPages = min 4 ((16384 - 8192) / 4096) ∧
    offsetPool.getTotalNumberOfPages ≤ 4 ∧
    8192 + offsetPool.getTotalNumberOfPages * 4096 ≤ 16384 ∧
    ∀ k, k ≤ 4 → 8192 + k * 4096 ≤ 16384 → k ≤ offsetPool.getTotalNumberOfPages :=
  ⟨rfl, C6_page_count_is_largest_fit 4096 4 65536 16384 none 8192 0 offsetPool offsetPool_new
    (by decide)⟩

/-- C7: the constructor called with `pageSize = 2^63`, `numberOfPages = 2`, `baseSize = 1`,
`firstPageOffset = 0` succeeds and keeps both pages, because `sizeNeeded` wraps to `0`; the
pages then extend `2^64` bytes from the base address while `getBaseBlockSize()` is `1`. -/
theorem C7_overrun_when_sizeNeeded_wraps (base : Nat) (cb : Option Nat) (u : Nat) :
    ∃ pool, MemoryPagesPool.new 9223372036854775808 2 base 1 cb 0 u = Except.ok pool ∧
      pool.getTotalNumberOfPages = 2 ∧ pool.getBaseBlockSize = 1 ∧
      ¬ (0 + pool.getTotalNumberOfPages * 9223372036854775808 ≤ pool.getBaseBlockSize) := by
  refine ⟨_, rfl, rfl, rfl, ?_⟩
  show ¬ (0 + 2 * 9223372036854775808 ≤ 1)
  decide

/-! ## Releasing a page -/

/-- C9: `releasePage(p)` throws exactly when `isPageValid(p)` is false, and when it throws the
pool, hence the content of the free list and `getNumberOfPagesAvailable()`, is what it was
before the call. -/
theorem C9_releasePage_throws_iff_invalid (pool : MemoryPagesPool) (p : Nat) :
    ((∃ line, (pool.releasePage p).1 = Except.error line) ↔ pool.isPageValid p = false) ∧
    ((∃ line, (pool.releasePage p).1 = Except.error line) →
      (pool.releasePage p).2 = pool ∧
      (pool.releasePage p).2.pagesAvailable.items = pool.pagesAvailable.items ∧
      (pool.releasePage p).2.getNumberOfPagesAvailable = pool.getNumberOfPagesAvailable) := by
  cases hv : pool.isPageValid p
  · simp [MemoryPagesPool.releasePage, hv]
  · simp [MemoryPagesPool.releasePage, hv]

/-! ## Valid pages -/

theorem MemoryPagesPool.isPageValid_iff (pool : MemoryPagesPool) (p : Nat) :
    pool.isPageValid p = true ↔
      pool.firstPageAddress ≤ p ∧ p ≤ pool.lastPageAddress ∧
        (p - pool.firstPageAddress) % pool.pageSize = 0 := by
  unfold MemoryPagesPool.isPageValid
  by_cases h1 : p < pool.firstPageAddress
  · simp only [if_pos h1]
    constructor
    · intro h; cases h
    · intro h; omega
  · by_cases h2 : p > pool.lastPageAddress
    · simp only [if_neg h1, if_pos h2]
      constructor
      · intro h; cases h
      · intro h; omega
    · by_cases h3 : (p - pool.firstPageAddress) % pool.pageSize ≠ 0
      · simp only [if_neg h1, if_neg h2, if_pos h3]
        constructor
        · intro h; cases h
        · intro h; exact absurd h.2.2 h3
      · simp only [if_neg h1, if_neg h2, if_neg h3]
        have h3b : (p - pool.firstPageAddress) % pool.pageSize = 0 := not_not.mp h3
        exact ⟨fun _ => ⟨by omega, by omega, h3b⟩, fun _ => by trivial⟩

/-- Without wrapping, page `i` is at `baseAddress + firstPageOffset + i * pageSize`. -/
theorem pageAddress_eq {base off ps n i : Nat}
    (hwrap : base + off + n * ps ≤ sizeMod) (hps : 0 < ps) (hi : i < n) :
    pageAddress base off ps i = base + off + i * ps := by
  have h1 : (i + 1) * ps ≤ n * ps := Nat.mul_le_mul_right ps hi
  rw [Nat.succ_mul] at h1
  have h2 : (off + i * ps) % sizeMod = off + i * ps := Nat.mod_eq_of_lt (by omega)
  unfold pageAddress
  rw [h2, Nat.mod_eq_of_lt (by omega)]
  omega

/-- The valid addresses of a constructed pool with at least one page, when the addresses do
not wrap. -/
theorem MemoryPagesPool.isPageValid_new_iff {ps n base bs : Nat} {cb : Option Nat} {off u : Nat}
    {pool : MemoryPagesPool} (h : MemoryPagesPool.new ps n base bs cb off u = Except.ok pool)
    (hn : 1 ≤ pool.getTotalNumberOfPages)
    (hwrap : base + off + pool.getTotalNumberOfPages * ps ≤ sizeMod) (p : Nat) :
    pool.isPageValid p = true ↔
      ∃ i, i < pool.getTotalNumberOfPages ∧ p = base + off + i * ps := by
  obtain ⟨hps, _, _, _, hpsz, _, _, _, hfirst, hlast, _⟩ := MemoryPagesPool.new_ok h
  simp only [MemoryPagesPool.getTotalNumberOfPages] at hn hwrap ⊢
  have hn0 : pool.numberOfPages ≠ 0 := by omega
  rw [if_neg hn0, pageAddress_eq hwrap hps (by omega)] at hfirst hlast
  rw [MemoryPagesPool.isPageValid_iff, hfirst, hlast, hpsz]
  constructor
  · rintro ⟨h1, h2, h3⟩
    obtain ⟨i, hi⟩ := Nat.dvd_of_mod_eq_zero h3
    refine ⟨i, ?_, ?_⟩
    · have h4 : ps * i ≤ ps * (pool.numberOfPages - 1) := by
        rw [← hi, Nat.mul_comm ps]
        omega
      have h5 : i ≤ pool.numberOfPages - 1 := Nat.le_of_mul_le_mul_left h4 hps
      omega
    · rw [Nat.mul_comm i ps, ← hi]
      omega
  · rintro ⟨i, hi, rfl⟩
    have h1 : i * ps ≤ (pool.numberOfPages - 1) * ps := Nat.mul_le_mul_right ps (by omega)
    refine ⟨by omega, by omega, ?_⟩
    have h2 : base + off + i * ps - (base + off + 0 * ps) = i * ps := by omega
    rw [h2]
    exact Nat.mul_mod_left i ps

/-- C8: for a constructed pool with at least one page whose address arithmetic does not wrap,
`isPageValid(p)` is true exactly for the addresses `baseAddress + firstPageOffset + i *
pageSize` with `0 <= i < getTotalNumberOfPages()`. -/
theorem C8_isPageValid_iff_pool_page (ps n base bs : Nat) (cb : Option Nat) (off u : Nat)
    (pool : MemoryPagesPool) (h : MemoryPagesPool.new ps n base bs cb off u = Except.ok pool)
    (hn : 1 ≤ pool.getTotalNumberOfPages)
    (hwrap : base + off + pool.getTotalNumberOfPages * ps ≤ sizeMod) (p : Nat) :
    pool.isPageValid p = true ↔
      ∃ i, i < pool.getTotalNumberOfPages ∧ p = base + off + i * ps :=
  MemoryPagesPool.isPageValid_new_iff h hn hwrap p

/-- C8, at the pool of four pages of 4096 bytes at address 65536: the address 73728 is valid
and is page 2. -/
theorem C8_isPageValid_iff_pool_page_witness :
    fourPagesPool.isPageValid 73728 = true ∧
    (fourPagesPool.isPageValid 73728 = true ↔
      ∃ i, i < fourPagesPool.getTotalNumberOfPages ∧ 73728 = 65536 + 0 + i * 4096) :=
  ⟨by decide, C8_isPageValid_iff_pool_page 4096 4 65536 16384 none 0 0 fourPagesPool
    fourPagesPool_new (by decide) (by decide) 73728⟩

/-! ## Pages in circulation -/

theorem User.step_getPage {L : DataBlockLayout} {u v : User}
    (hstep : u.step L Call.getPage = some v) :
    (u.pool.pagesAvailable.items = [] ∧ v = u) ∨
    (∃ x rest, u.pool.pagesAvailable.items = x :: rest ∧
      v.pool = { u.pool with pagesAvailable := ⟨u.pool.pagesAvailable.size, rest⟩ } ∧
      v.pages = (if x = 0 then u.pages else x :: u.pages) ∧ v.containers = u.containers) := by
  obtain ⟨⟨⟨size, items⟩, n, ps, b, bs, f, l, cb⟩, pages, cs⟩ := u
  cases items with
  | nil =>
    left
    simp [User.step, MemoryPagesPool.getPage, Fifo.pop] at hstep
    exact ⟨rfl, hstep.symm⟩
  | cons x rest =>
    right
    simp [User.step, MemoryPagesPool.getPage, Fifo.pop] at hstep
    subst hstep
    exact ⟨x, rest, rfl, rfl, rfl, rfl⟩

theorem User.step_getNewDataBlockContainer {L : DataBlockLayout} {u v : User}
    (hstep : u.step L Call.getNewDataBlockContainer = some v) :
    (u.pool.pagesAvailable.items = [] ∧ v = u) ∨
    (∃ x rest, u.pool.pagesAvailable.items = x :: rest ∧
      v.pool = { u.pool with pagesAvailable := ⟨u.pool.pagesAvailable.size, rest⟩ } ∧
      v.pages = u.pages ∧
      ((x = 0 ∧ v.containers = u.containers) ∨
        (x ≠ 0 ∧ ∃ bc, bc.page = x ∧ v.containers = bc :: u.containers))) := by
  obtain ⟨⟨⟨size, items⟩, n, ps, b, bs, f, l, cb⟩, pages, cs⟩ := u
  cases items with
  | nil =>
    left
    simp [User.step, MemoryPagesPool.getNewDataBlockContainer, MemoryPagesPool.getPage,
      Fifo.pop] at hstep
    exact ⟨rfl, hstep.symm⟩
  | cons x rest =>
    right
    by_cases hx : x = 0
    · simp [User.step, MemoryPagesPool.getNewDataBlockContainer, MemoryPagesPool.getPage,
        Fifo.pop, hx] at hstep
      subst hstep
      exact ⟨x, rest, rfl, rfl, rfl, Or.inl ⟨hx, rfl⟩⟩
    · simp [User.step, MemoryPagesPool.getNewDataBlockContainer, MemoryPagesPool.getPage,
        Fifo.pop, hx] at hstep
      subst hstep
      exact ⟨x, rest, rfl, rfl, rfl, Or.inr ⟨hx, _, rfl, rfl⟩⟩

theorem User.step_releasePage {L : DataBlockLayout} {u v : User} {a : Nat}
    (hstep : u.step L (Call.releasePage a) = some v) :
    a ∈ u.pages ∧ u.pool.isPageValid a = true ∧
      v.pool = { u.pool with pagesAvailable := u.pool.pagesAvailable.push a } ∧
      v.pages = u.pages.erase a ∧ v.containers = u.containers := by
  simp only [User.step] at hstep
  by_cases ha : a ∈ u.pages
  · rw [if_pos ha] at hstep
    cases hv : u.pool.isPageValid a
    · simp [MemoryPagesPool.releasePage, hv] at hstep
    · simp [MemoryPagesPool.releasePage, hv] at hstep
      subst hstep
      exact ⟨ha, rfl, rfl, rfl, rfl⟩
  · rw [if_neg ha] at hstep
    cases hstep

theorem User.step_dropContainer {L : DataBlockLayout} {u v : User} {bc : DataBlockContainer}
    (hstep : u.step L (Call.dropContainer bc) = some v) :
    bc ∈ u.containers ∧ u.pool.isPageValid bc.page = true ∧
      v.pool = { u.pool with pagesAvailable := u.pool.pagesAvailable.push bc.page } ∧
      v.pages = u.pages ∧ v.containers = u.containers.erase bc := by
  simp only [User.step] at hstep
  by_cases ha : bc ∈ u.containers
  · rw [if_pos ha] at hstep
    cases hv : u.pool.isPageValid bc.page
    · simp [MemoryPagesPool.releaseCallback, MemoryPagesPool.releasePage, hv] at hstep
    · simp [MemoryPagesPool.releaseCallback, MemoryPagesPool.releasePage, hv] at hstep
      subst hstep
      exact ⟨ha, rfl, rfl, rfl, rfl⟩
  · rw [if_neg ha] at hstep
    cases hstep

/-- One call of a disciplined user neither makes nor duplicates a page: the pages in
circulation afterwards are among those before, and they are the same ones unless the free list
held the null address. -/
theorem User.step_held {L : DataBlockLayout} {u v : User} {c : Call}
    (hstep : u.step L c = some v) (hcap : u.held.length ≤ u.pool.pagesAvailable.size) :
    v.held.Subperm u.held ∧ (0 ∉ u.pool.pagesAvailable.items → v.held.Perm u.held) ∧
    v.pool.pagesAvailable.size = u.pool.pagesAvailable.size ∧
    v.pool.numberOfPages = u.pool.numberOfPages := by
  cases c with
  | getPage =>
    rcases User.step_getPage hstep with ⟨_, rfl⟩ | ⟨x, rest, hitems, hpool, hpages, hcs⟩
    · exact ⟨List.Subperm.refl _, fun _ => List.Perm.refl _, rfl, rfl⟩
    · have hv : v.held = rest ++ (if x = 0 then u.pages else x :: u.pages)
          ++ u.containers.map DataBlockContainer.page := by
        simp [User.held, hpool, hpages, hcs]
      have hu : u.held = x :: (rest ++ u.pages ++ u.containers.map DataBlockContainer.page) := by
        simp [User.held, hitems]
      rw [hv, hu, hpool]
      refine ⟨?_, ?_, rfl, rfl⟩
      · by_cases hx : x = 0
        · rw [if_pos hx]
          exact (List.sublist_cons_self _ _).subperm
        · rw [if_neg hx]
          exact List.Perm.subperm (by simp [List.perm_middle])
      · intro h0
        have hx : x ≠ 0 := by
          rintro rfl
          exact h0 (by simp [hitems])
        rw [if_neg hx]
        simp [List.perm_middle]
  | getNewDataBlockContainer =>
    rcases User.step_getNewDataBlockContainer hstep with
      ⟨_, rfl⟩ | ⟨x, rest, hitems, hpool, hpages, hcs⟩
    · exact ⟨List.Subperm.refl _, fun _ => List.Perm.refl _, rfl, rfl⟩
    · have hu : u.held = x :: (rest ++ u.pages ++ u.containers.map DataBlockContainer.page) := by
        simp [User.held, hitems]
      rcases hcs with ⟨hx, hcs⟩ | ⟨hx, bc, hbc, hcs⟩
      · have hv : v.held = rest ++ u.pages ++ u.containers.map DataBlockContainer.page := by
          simp [User.held, hpool, hpages, hcs]
        rw [hv, hu, hpool]
        refine ⟨(List.sublist_cons_self _ _).subperm, ?_, rfl, rfl⟩
        intro h0
        exact absurd (by simp [hitems, hx]) h0
      · have hv : v.held
            = rest ++ u.pages ++ x :: u.containers.map DataBlockContainer.page := by
          simp [User.held, hpool, hpages, hcs, hbc]
        rw [hv, hu, hpool]
        have hp : (rest ++ u.pages ++ x :: u.containers.map DataBlockContainer.page).Perm
            (x :: (rest ++ u.pages ++ u.containers.map DataBlockContainer.page)) :=
          List.perm_middle
        exact ⟨hp.subperm, fun _ => hp, rfl, rfl⟩
  | releasePage a =>
    obtain ⟨ha, _, hpool, hpages, hcs⟩ := User.step_releasePage hstep
    have hlen : u.pool.pagesAvailable.items.length < u.pool.pagesAvailable.size := by
      have h1 : 0 < u.pages.length := List.length_pos_of_mem ha
      simp only [User.held, List.length_append] at hcap
      omega
    have hv : v.held = u.pool.pagesAvailable.items ++ [a] ++ u.pages.erase a
        ++ u.containers.map DataBlockContainer.page := by
      simp [User.held, hpool, hpages, hcs, Fifo.push_of_lt _ _ hlen]
    have hp : v.held.Perm u.held := by
      rw [hv]
      simp only [User.held, List.append_assoc]
      apply List.Perm.append_left
      simp only [List.singleton_append]
      exact (List.perm_cons_erase ha).symm.append_right _
    refine ⟨hp.subperm, fun _ => hp, ?_, ?_⟩
    · rw [hpool, Fifo.push_of_lt _ _ hlen]
    · rw [hpool]
  | dropContainer bc =>
    obtain ⟨ha, _, hpool, hpages, hcs⟩ := User.step_dropContainer hstep
    have hlen : u.pool.pagesAvailable.items.length < u.pool.pagesAvailable.size := by
      have h1 : 0 < u.containers.length := List.length_pos_of_mem ha
      simp only [User.held, List.length_append, List.length_map] at hcap
      omega
    have hv : v.held = u.pool.pagesAvailable.items ++ [bc.page] ++ u.pages
        ++ (u.containers.erase bc).map DataBlockContainer.page := by
      simp [User.held, hpool, hpages, hcs, Fifo.push_of_lt _ _ hlen]
    have hp : v.held.Perm u.held := by
      rw [hv]
      simp only [User.held, List.append_assoc]
      apply List.Perm.append_left
      simp only [List.singleton_append]
      have h1 : (bc.page :: (u.containers.erase bc).map DataBlockContainer.page).Perm
          (u.containers.map DataBlockContainer.page) := by
        have := (List.perm_cons_erase ha).symm.map DataBlockContainer.page
        simpa using this
      exact (List.perm_middle.symm.trans (List.Perm.append_left _ h1))
    refine ⟨hp.subperm, fun _ => hp, ?_, ?_⟩
    · rw [hpool, Fifo.push_of_lt _ _ hlen]
    · rw [hpool]

theorem User.run_subperm {L : DataBlockLayout} :
    ∀ (calls : List Call) (u v : User), u.run L calls = some v →
      u.held.length ≤ u.pool.pagesAvailable.size →
      v.held.Subperm u.held ∧ v.pool.pagesAvailable.size = u.pool.pagesAvailable.size ∧
        v.pool.numberOfPages = u.pool.numberOfPages := by
  intro calls
  induction calls with
  | nil =>
    intro u v hrun _
    simp only [User.run, Option.some.injEq] at hrun
    subst hrun
    exact ⟨List.Subperm.refl _, rfl, rfl⟩
  | cons c cs ih =>
    intro u v hrun hcap
    simp only [User.run] at hrun
    cases hstep : u.step L c with
    | none => rw [hstep] at hrun; cases hrun
    | some w =>
      rw [hstep] at hrun
      obtain ⟨hsub, _, hsize, hnum⟩ := User.step_held hstep hcap
      have hcapw : w.held.length ≤ w.pool.pagesAvailable.size := by
        rw [hsize]
        exact Nat.le_trans hsub.length_le hcap
      obtain ⟨hsub2, hsize2, hnum2⟩ := ih w v hrun hcapw
      exact ⟨hsub2.trans hsub, hsize2.trans hsize, hnum2.trans hnum⟩

theorem User.run_perm {L : DataBlockLayout} :
    ∀ (calls : List Call) (u v : User), u.run L calls = some v →
      u.held.length ≤ u.pool.pagesAvailable.size → 0 ∉ u.held →
      v.held.Perm u.held ∧ v.pool.pagesAvailable.size = u.pool.pagesAvailable.size ∧
        v.pool.numberOfPages = u.pool.numberOfPages := by
  intro calls
  induction calls with
  | nil =>
    intro u v hrun _ _
    simp only [User.run, Option.some.injEq] at hrun
    subst hrun
    exact ⟨List.Perm.refl _, rfl, rfl⟩
  | cons c cs ih =>
    intro u v hrun hcap hnull
    simp only [User.run] at hrun
    cases hstep : u.step L c with
    | none => rw [hstep] at hrun; cases hrun
    | some w =>
      rw [hstep] at hrun
      obtain ⟨_, hperm, hsize, hnum⟩ := User.step_held hstep hcap
      have hp : w.held.Perm u.held :=
        hperm (fun h0 => hnull (by simp [User.held, h0]))
      have hcapw : w.held.length ≤ w.pool.pagesAvailable.size := by
        rw [hsize, hp.length_eq]
        exact hcap
      have hnullw : 0 ∉ w.held := fun h0 => hnull (hp.mem_iff.mp h0)
      obtain ⟨hp2, hsize2, hnum2⟩ := ih w v hrun hcapw hnullw
      exact ⟨hp2.trans hp, hsize2.trans hsize, hnum2.trans hnum⟩

/-- The pages in circulation of a pool just constructed: its free list, which is full. -/
theorem User.fresh_held {ps n base bs : Nat} {cb : Option Nat} {off u : Nat}
    {pool : MemoryPagesPool} (h : MemoryPagesPool.new ps n base bs cb off u = Except.ok pool) :
    (User.fresh pool).held = pool.pagesAvailable.items ∧
    pool.pagesAvailable.items = (List.range pool.numberOfPages).map (pageAddress base off ps) ∧
    pool.pagesAvailable.items.length = pool.numberOfPages ∧
    pool.pagesAvailable.size = pool.numberOfPages := by
  obtain ⟨_, _, _, _, _, _, _, hfifo, _⟩ := MemoryPagesPool.new_ok h
  refine ⟨by simp [User.held, User.fresh], ?_, ?_, ?_⟩
  · rw [hfifo]
  · rw [hfifo]; simp
  · rw [hfifo]

theorem nullBasePool_new :
    MemoryPagesPool.new 4096 4 0 16384 none 0 0 = Except.ok nullBasePool := by
  rfl

/-! ## Page conservation -/

/-- C1, as stated, fails for a pool whose base address is null: the pool made from `pageSize =
4096`, `numberOfPages = 4`, `baseAddress = nullptr`, `baseSize = 16384`, `firstPageOffset = 0`
has its first page at the null address; `getNewDataBlockContainer(nullptr)` takes that page
from the free list, reads it as "no page" and returns null. Afterwards 3 pages are available
and none is checked out, of 4. -/
theorem C1_null_page_is_lost :
    MemoryPagesPool.new 4096 4 0 16384 none 0 0 = Except.ok nullBasePool ∧
    ∃ s, User.run exampleLayout (User.fresh nullBasePool) [Call.getNewDataBlockContainer]
        = some s ∧
      s.pool.getNumberOfPagesAvailable = 3 ∧ s.checkedOut = 0 ∧
      s.pool.getTotalNumberOfPages = 4 ∧
      s.pool.getNumberOfPagesAvailable + s.checkedOut ≠ s.pool.getTotalNumberOfPages :=
  ⟨nullBasePool_new, _, rfl, rfl, rfl, rfl, by decide⟩

/-- C1, amended: for every constructed pool none of whose pages is at the null address, and
every sequence of `getPage`, `getNewDataBlockContainer(nullptr)`, `releasePage` and container
releases in which only checked-out pages are given back, each once, after the sequence
`getNumberOfPagesAvailable()` plus the number of checked-out pages is
`getTotalNumberOfPages()`. -/
theorem C1_page_conservation (L : DataBlockLayout) (ps n base bs : Nat) (cb : Option Nat)
    (off u : Nat) (pool : MemoryPagesPool)
    (h : MemoryPagesPool.new ps n base bs cb off u = Except.ok pool)
    (hnull : 0 ∉ pool.pagesAvailable.items)
    (calls : List Call) (s : User) (hrun : (User.fresh pool).run L calls = some s) :
    s.pool.getNumberOfPagesAvailable + s.checkedOut = s.pool.getTotalNumberOfPages := by
  obtain ⟨hheld, _, hlen, hsize⟩ := User.fresh_held h
  have hcap : (User.fresh pool).held.length ≤ (User.fresh pool).pool.pagesAvailable.size := by
    rw [hheld, hlen]
    exact Nat.le_of_eq hsize.symm
  have hnull2 : 0 ∉ (User.fresh pool).held := by rw [hheld]; exact hnull
  obtain ⟨hperm, _, hnum⟩ := User.run_perm calls _ _ hrun hcap hnull2
  have hl := hperm.length_eq
  rw [hheld, hlen] at hl
  simp only [User.held, List.length_append, List.length_map] at hl
  simp only [MemoryPagesPool.getNumberOfPagesAvailable, Fifo.getNumberOfUsedSlots,
    User.checkedOut, MemoryPagesPool.getTotalNumberOfPages]
  have hnum2 : s.pool.numberOfPages = pool.numberOfPages := hnum
  omega

/-- C1, amended, at the pool of four pages of 4096 bytes at address 65536: after a `getPage`,
a `getNewDataBlockContainer(nullptr)` and the release of the page, 3 pages are available and 1
is checked out. -/
theorem C1_page_conservation_witness :
    (∃ s, (User.fresh fourPagesPool).run exampleLayout
        [Call.getPage, Call.getNewDataBlockContainer, Call.releasePage 65536] = some s ∧
      s.pool.getNumberOfPagesAvailable = 3 ∧ s.checkedOut = 1 ∧
      s.pool.getNumberOfPagesAvailable + s.checkedOut = s.pool.getTotalNumberOfPages) :=
  ⟨_, rfl, rfl, rfl,
    C1_page_conservation exampleLayout 4096 4 65536 16384 none 0 0 fourPagesPool
      fourPagesPool_new (by decide)
      [Call.getPage, Call.getNewDataBlockContainer, Call.releasePage 65536] _ rfl⟩

/-! ## Free and checked-out pages -/

/-- When the size computation does not wrap and the base block lies in the address space, so
do the pages. -/
theorem MemoryPagesPool.new_nowrap {ps n base bs : Nat} {cb : Option Nat} {off u : Nat}
    {pool : MemoryPagesPool} (h : MemoryPagesPool.new ps n base bs cb off u = Except.ok pool)
    (hno : ps * n + off < sizeMod) (hblk : base + bs ≤ sizeMod) :
    base + off + pool.numberOfPages * ps ≤ sizeMod := by
  obtain ⟨hfit, _⟩ := MemoryPagesPool.new_fits h hno
  omega

/-- The free list of a pool just constructed, when nothing wraps: page `i` is at
`baseAddress + firstPageOffset + i * pageSize`. -/
theorem MemoryPagesPool.new_items {ps n base bs : Nat} {cb : Option Nat} {off u : Nat}
    {pool : MemoryPagesPool} (h : MemoryPagesPool.new ps n base bs cb off u = Except.ok pool)
    (hwrap : base + off + pool.numberOfPages * ps ≤ sizeMod) :
    pool.pagesAvailable.items
      = (List.range pool.numberOfPages).map (fun i => base + off + i * ps) := by
  obtain ⟨hps, _⟩ := MemoryPagesPool.new_ok h
  rw [(User.fresh_held h).2.1]
  apply List.map_congr_left
  intro i hi
  exact pageAddress_eq hwrap hps (List.mem_range.mp hi)

theorem MemoryPagesPool.new_items_nodup {ps n base bs : Nat} {cb : Option Nat} {off u : Nat}
    {pool : MemoryPagesPool} (h : MemoryPagesPool.new ps n base bs cb off u = Except.ok pool)
    (hwrap : base + off + pool.numberOfPages * ps ≤ sizeMod) :
    pool.pagesAvailable.items.Nodup := by
  obtain ⟨hps, _⟩ := MemoryPagesPool.new_ok h
  rw [MemoryPagesPool.new_items h hwrap]
  apply List.Nodup.map_on _ (List.nodup_range _)
  intro x _ y _ hxy
  have h1 : x * ps = y * ps := by omega
  exact Nat.eq_of_mul_eq_mul_right hps h1

/-- C2, as stated, fails: `releasePage` accepts every valid address, also that of a page that
is free. In the pool of four pages of 4096 bytes at address 65536, after one `getPage`
(returning 65536) the call `releasePage(69632)` completes, and the free list holds 69632
twice. -/
theorem C2_release_of_free_page_duplicates :
    MemoryPagesPool.new 4096 4 65536 16384 none 0 0 = Except.ok fourPagesPool ∧
    fourPagesPool.rawRun [RawCall.getPage, RawCall.releasePage 69632]
      = some ({ fourPagesPool with pagesAvailable := ⟨4, [69632, 73728, 77824, 69632]⟩ },
          [65536]) ∧
    ¬ ([69632, 73728, 77824, 69632] : List Nat).Nodup :=
  ⟨fourPagesPool_new, rfl, by decide⟩

/-- C2, amended: for a constructed pool whose size computation does not overflow and whose base
block lies in the address space, in every state reached by calls in which `releasePage` is
given only pages that are checked out, each once, the free list holds pairwise-distinct
addresses and no address in it is checked out. -/
theorem C2_free_and_checked_out_disjoint (L : DataBlockLayout) (ps n base bs : Nat)
    (cb : Option Nat) (off u : Nat) (pool : MemoryPagesPool)
    (h : MemoryPagesPool.new ps n base bs cb off u = Except.ok pool)
    (hno : ps * n + off < sizeMod) (hblk : base + bs ≤ sizeMod)
    (calls : List Call) (s : User) (hrun : (User.fresh pool).run L calls = some s) :
    s.pool.pagesAvailable.items.Nodup ∧
    (∀ a ∈ s.pool.pagesAvailable.items, a ∉ s.pages ∧ ∀ bc ∈ s.containers, bc.page ≠ a) ∧
    s.pages.Nodup := by
  obtain ⟨hheld, _, hlen, hsize⟩ := User.fresh_held h
  have hcap : (User.fresh pool).held.length ≤ (User.fresh pool).pool.pagesAvailable.size := by
    rw [hheld, hlen]
    exact Nat.le_of_eq hsize.symm
  obtain ⟨hsub, _, _⟩ := User.run_subperm calls _ _ hrun hcap
  have hnd0 : (User.fresh pool).held.Nodup := by
    rw [hheld]
    exact MemoryPagesPool.new_items_nodup h (MemoryPagesPool.new_nowrap h hno hblk)
  have hnd : s.held.Nodup := by
    obtain ⟨l, hl, hsl⟩ := hsub
    exact hl.nodup_iff.mp (hsl.nodup hnd0)
  simp only [User.held, List.append_assoc] at hnd
  rw [List.nodup_append] at hnd
  obtain ⟨hfree, hrest, hdisj⟩ := hnd
  refine ⟨hfree, ?_, (List.nodup_append.mp hrest).1⟩
  intro a ha
  constructor
  · intro hp
    exact hdisj ha (List.mem_append_left _ hp)
  · intro bc hbc hpage
    exact hdisj ha (List.mem_append_right _ (List.mem_map.mpr ⟨bc, hbc, hpage⟩))

/-- C2, amended, at the pool of four pages of 4096 bytes at address 65536, after two `getPage`
calls and the release of the first page. -/
theorem C2_free_and_checked_out_disjoint_witness :
    (∃ s, (User.fresh fourPagesPool).run exampleLayout
        [Call.getPage, Call.getPage, Call.releasePage 65536] = some s ∧
      s.pool.pagesAvailable.items = [73728, 77824, 65536] ∧ s.pages = [69632] ∧
      s.pool.pagesAvailable.items.Nodup ∧
      (∀ a ∈ s.pool.pagesAvailable.items, a ∉ s.pages ∧ ∀ bc ∈ s.containers, bc.page ≠ a) ∧
      s.pages.Nodup) :=
  ⟨_, rfl, rfl, rfl,
    C2_free_and_checked_out_disjoint exampleLayout 4096 4 65536 16384 none 0 0 fourPagesPool
      fourPagesPool_new (by decide) (by decide)
      [Call.getPage, Call.getPage, Call.releasePage 65536] _ rfl⟩

/-! ## Addresses returned by `getPage` -/

theorem wrappedPool_new :
    MemoryPagesPool.new 6917529027641081856 8 4096 1 none 0 0 = Except.ok wrappedPool := by
  rfl

/-- C3: the constructor called with `pageSize = 3 * 2^61`, `numberOfPages = 8`, `baseSize = 1`,
`firstPageOffset = 0` and base address `4096` succeeds with 8 pages, because `sizeNeeded`
wraps to `0` at line 37. The third `getPage` returns the non-null address `4096 + 6 * 2^61`,
which is above `lastPageAddress = 4096 + 5 * 2^61`: `isPageValid` rejects it. -/
theorem C3_getPage_returns_invalid_page :
    MemoryPagesPool.new 6917529027641081856 8 4096 1 none 0 0 = Except.ok wrappedPool ∧
    ∃ last, wrappedPool.rawRun [RawCall.getPage, RawCall.getPage, RawCall.getPage]
        = some (last, [4096, 6917529027641085952, 13835058055282167808]) ∧
      (13835058055282167808 : Nat) ≠ 0 ∧
      wrappedPool.isPageValid 13835058055282167808 = false ∧
      last.isPageValid 13835058055282167808 = false :=
  ⟨wrappedPool_new, _, rfl, by decide, rfl, rfl⟩

theorem MemoryPagesPool.isPageValid_congr {p q : MemoryPagesPool}
    (h1 : q.firstPageAddress = p.firstPageAddress) (h2 : q.lastPageAddress = p.lastPageAddress)
    (h3 : q.pageSize = p.pageSize) (a : Nat) : q.isPageValid a = p.isPageValid a := by
  simp only [MemoryPagesPool.isPageValid, h1, h2, h3]

theorem Fifo.mem_push {q : Fifo} {x a : Nat} (h : a ∈ (q.push x).items) :
    a ∈ q.items ∨ a = x := by
  unfold Fifo.push at h
  split at h
  · simpa using h
  · exact Or.inl h

/-- One call keeps the free list within the valid addresses, and a `getPage` returns null or
one of them. -/
theorem MemoryPagesPool.rawStep_valid {p q : MemoryPagesPool} {c : RawCall} {r : Option Nat}
    (hstep : p.rawStep c = some (q, r))
    (hinv : ∀ a ∈ p.pagesAvailable.items, p.isPageValid a = true) :
    (∀ a, q.isPageValid a = p.isPageValid a) ∧
    (∀ a ∈ q.pagesAvailable.items, p.isPageValid a = true) ∧
    (∀ a ∈ r, a ≠ 0 → p.isPageValid a = true) := by
  cases c with
  | getPage =>
    simp only [MemoryPagesPool.rawStep, MemoryPagesPool.getPage, Fifo.pop] at hstep
    cases hitems : p.pagesAvailable.items with
    | nil =>
      simp [hitems] at hstep
      obtain ⟨rfl, rfl⟩ := hstep
      refine ⟨fun _ => rfl, hinv, ?_⟩
      intro a ha hne
      simp at ha
      exact absurd ha.symm hne
    | cons x rest =>
      simp [hitems] at hstep
      obtain ⟨rfl, rfl⟩ := hstep
      refine ⟨fun a => MemoryPagesPool.isPageValid_congr rfl rfl rfl a, ?_, ?_⟩
      · intro a ha
        exact hinv a (by rw [hitems]; exact List.mem_cons_of_mem _ ha)
      · intro a ha _
        simp at ha
        subst ha
        exact hinv _ (by rw [hitems]; exact List.mem_cons_self _ _)
  | releasePage address =>
    simp only [MemoryPagesPool.rawStep, MemoryPagesPool.releasePage] at hstep
    cases hv : p.isPageValid address
    · simp [hv] at hstep
    · simp [hv] at hstep
      obtain ⟨rfl, rfl⟩ := hstep
      refine ⟨fun a => MemoryPagesPool.isPageValid_congr rfl rfl rfl a, ?_, ?_⟩
      · intro a ha
        rcases Fifo.mem_push ha with h | h
        · exact hinv a h
        · rw [h]; exact hv
      · intro a ha
        simp at ha

theorem MemoryPagesPool.rawRun_valid :
    ∀ (calls : List RawCall) (p last : MemoryPagesPool) (rs : List Nat),
      p.rawRun calls = some (last, rs) →
      (∀ a ∈ p.pagesAvailable.items, p.isPageValid a = true) →
      ∀ a ∈ rs, a ≠ 0 → p.isPageValid a = true := by
  intro calls
  induction calls with
  | nil =>
    intro p last rs hrun _ a ha
    simp [MemoryPagesPool.rawRun] at hrun
    rw [hrun.2] at ha
    cases ha
  | cons c cs ih =>
    intro p last rs hrun hinv a ha hne
    simp only [MemoryPagesPool.rawRun] at hrun
    cases hstep : p.rawStep c with
    | none => rw [hstep] at hrun; cases hrun
    | some qr =>
      obtain ⟨q, r⟩ := qr
      rw [hstep] at hrun
      simp only at hrun
      obtain ⟨hsame, hitems, hret⟩ := MemoryPagesPool.rawStep_valid hstep hinv
      cases hrest : q.rawRun cs with
      | none => rw [hrest] at hrun; cases hrun
      | some lr =>
        obtain ⟨l, rs2⟩ := lr
        rw [hrest] at hrun
        simp only [Option.some.injEq, Prod.mk.injEq] at hrun
        obtain ⟨_, hrs⟩ := hrun
        rw [← hrs, List.mem_append] at ha
        rcases ha with ha | ha
        · exact hret a (by simpa using ha) hne
        · have hinvq : ∀ b ∈ q.pagesAvailable.items, q.isPageValid b = true := by
            intro b hb
            rw [hsame]
            exact hitems b hb
          rw [← hsame]
          exact ih q l rs2 hrest hinvq a ha hne

/-- The pages of a pool just constructed are valid when nothing wraps. -/
theorem MemoryPagesPool.new_items_valid {ps n base bs : Nat} {cb : Option Nat} {off u : Nat}
    {pool : MemoryPagesPool} (h : MemoryPagesPool.new ps n base bs cb off u = Except.ok pool)
    (hwrap : base + off + pool.numberOfPages * ps ≤ sizeMod) :
    ∀ a ∈ pool.pagesAvailable.items, pool.isPageValid a = true := by
  intro a ha
  rw [MemoryPagesPool.new_items h hwrap, List.mem_map] at ha
  obtain ⟨i, hi, rfl⟩ := ha
  have hi2 : i < pool.numberOfPages := List.mem_range.mp hi
  exact (MemoryPagesPool.isPageValid_new_iff h (by
    simp only [MemoryPagesPool.getTotalNumberOfPages]; omega) hwrap _).mpr ⟨i, hi2, rfl⟩

/-- Address legality holds whenever the size computation of the constructor does not wrap and
the base block lies in the address space: every non-null address returned by `getPage`, in any
sequence of `getPage` and `releasePage` calls that complete, is valid. -/
theorem MemoryPagesPool.getPage_valid_of_no_overflow {ps n base bs : Nat} {cb : Option Nat}
    {off u : Nat} {pool : MemoryPagesPool}
    (h : MemoryPagesPool.new ps n base bs cb off u = Except.ok pool)
    (hno : ps * n + off < sizeMod) (hblk : base + bs ≤ sizeMod)
    (calls : List RawCall) (last : MemoryPagesPool) (rs : List Nat)
    (hrun : pool.rawRun calls = some (last, rs)) :
    ∀ a ∈ rs, a ≠ 0 → pool.isPageValid a = true :=
  MemoryPagesPool.rawRun_valid calls pool last rs hrun
    (MemoryPagesPool.new_items_valid h (MemoryPagesPool.new_nowrap h hno hblk))

/-! ## Exhausting a fresh pool -/

/-- As many `getPage` calls as there are free pages return the free list in order and leave it
empty. -/
theorem MemoryPagesPool.getPages_all :
    ∀ (items : List Nat) (pool : MemoryPagesPool), pool.pagesAvailable.items = items →
      pool.getPages items.length
        = (items, { pool with pagesAvailable := ⟨pool.pagesAvailable.size, []⟩ }) := by
  intro items
  induction items with
  | nil =>
    intro pool hitems
    obtain ⟨⟨size, its⟩, n, ps, b, bs, f, l, cb⟩ := pool
    simp only at hitems
    subst hitems
    rfl
  | cons x rest ih =>
    intro pool hitems
    obtain ⟨⟨size, its⟩, n, ps, b, bs, f, l, cb⟩ := pool
    simp only at hitems
    subst hitems
    simp only [List.length_cons, MemoryPagesPool.getPages, MemoryPagesPool.getPage, Fifo.pop]
    rw [ih _ rfl]

/-- The call `getPage` on an empty free list returns null and changes nothing. -/
theorem MemoryPagesPool.getPage_of_empty (pool : MemoryPagesPool)
    (h : pool.pagesAvailable.items = []) : pool.getPage = (0, pool) := by
  simp [MemoryPagesPool.getPage, Fifo.pop, h]

/-- C10, as stated, fails for a pool whose base address is null: the pool made from `pageSize =
4096`, `numberOfPages = 4`, `baseAddress = nullptr`, `baseSize = 16384`, `firstPageOffset = 0`
has 4 pages, and its first `getPage` returns the null address. -/
theorem C10_null_base_first_getPage_null :
    MemoryPagesPool.new 4096 4 0 16384 none 0 0 = Except.ok nullBasePool ∧
    nullBasePool.getTotalNumberOfPages = 4 ∧
    (nullBasePool.getPages 4).1 = [0, 4096, 8192, 12288] ∧
    nullBasePool.getPage.1 = 0 ∧
    ¬ (∀ a ∈ (nullBasePool.getPages nullBasePool.getTotalNumberOfPages).1, a ≠ 0) :=
  ⟨nullBasePool_new, rfl, rfl, rfl, by decide⟩

/-- C10, amended: for a constructed pool with a non-null base address, a base block inside the
address space and a size computation that does not overflow, the first
`getTotalNumberOfPages()` calls of `getPage` return that many non-null, pairwise-distinct
addresses that satisfy `isPageValid`, and the next `getPage` returns null and leaves the pool
unchanged. -/
theorem C10_fresh_pool_exhaustion (ps n base bs : Nat) (cb : Option Nat) (off u : Nat)
    (pool : MemoryPagesPool) (h : MemoryPagesPool.new ps n base bs cb off u = Except.ok pool)
    (hbase : 0 < base) (hblk : base + bs ≤ sizeMod) (hno : ps * n + off < sizeMod) :
    (pool.getPages pool.getTotalNumberOfPages).1.length = pool.getTotalNumberOfPages ∧
    (∀ a ∈ (pool.getPages pool.getTotalNumberOfPages).1,
      a ≠ 0 ∧ pool.isPageValid a = true ∧
        (pool.getPages pool.getTotalNumberOfPages).2.isPageValid a = true) ∧
    (pool.getPages pool.getTotalNumberOfPages).1.Nodup ∧
    (pool.getPages pool.getTotalNumberOfPages).2.getPage
      = (0, (pool.getPages pool.getTotalNumberOfPages).2) := by
  have hwrap := MemoryPagesPool.new_nowrap h hno hblk
  obtain ⟨_, _, hlen, _⟩ := User.fresh_held h
  have hall := MemoryPagesPool.getPages_all pool.pagesAvailable.items pool rfl
  rw [hlen] at hall
  simp only [MemoryPagesPool.getTotalNumberOfPages]
  rw [hall]
  refine ⟨hlen, ?_, MemoryPagesPool.new_items_nodup h hwrap,
    MemoryPagesPool.getPage_of_empty _ rfl⟩
  intro a ha
  have hv := MemoryPagesPool.new_items_valid h hwrap a ha
  refine ⟨?_, hv, ?_⟩
  · rw [MemoryPagesPool.new_items h hwrap, List.mem_map] at ha
    obtain ⟨i, _, rfl⟩ := ha
    omega
  · rw [MemoryPagesPool.isPageValid_congr rfl rfl rfl a]
    exact hv

/-- C10, amended, at `pageSize = 4096`, `numberOfPages = 4`, `baseSize = 16384`,
`firstPageOffset = 0` and base address 65536: four distinct valid pages, then null. -/
theorem C10_fresh_pool_exhaustion_witness :
    (fourPagesPool.getPages 4).1 = [65536, 69632, 73728, 77824] ∧
    (fourPagesPool.getPages 5).1 = [65536, 69632, 73728, 77824, 0] ∧
    ((fourPagesPool.getPages fourPagesPool.getTotalNumberOfPages).1.length
        = fourPagesPool.getTotalNumberOfPages ∧
      (∀ a ∈ (fourPagesPool.getPages fourPagesPool.getTotalNumberOfPages).1,
        a ≠ 0 ∧ fourPagesPool.isPageValid a = true ∧
          (fourPagesPool.getPages fourPagesPool.getTotalNumberOfPages).2.isPageValid a = true) ∧
      (fourPagesPool.getPages fourPagesPool.getTotalNumberOfPages).1.Nodup ∧
      (fourPagesPool.getPages fourPagesPool.getTotalNumberOfPages).2.getPage
        = (0, (fourPagesPool.getPages fourPagesPool.getTotalNumberOfPages).2)) :=
  ⟨rfl, rfl, C10_fresh_pool_exhaustion 4096 4 65536 16384 none 0 0 fourPagesPool
    fourPagesPool_new (by decide) (by decide) (by decide)⟩

/-! ## Wrapping a page and giving it back -/

/-- A call of a disciplined user changes no member of the pool other than the free list. -/
theorem User.step_frame {L : DataBlockLayout} {u v : User} {c : Call}
    (hstep : u.step L c = some v) :
    { v.pool with pagesAvailable := u.pool.pagesAvailable } = u.pool := by
  cases c with
  | getPage =>
    rcases User.step_getPage hstep with ⟨_, rfl⟩ | ⟨x, rest, _, hpool, _, _⟩
    · rfl
    · rw [hpool]
  | getNewDataBlockContainer =>
    rcases User.step_getNewDataBlockContainer hstep with ⟨_, rfl⟩ | ⟨x, rest, _, hpool, _, _⟩
    · rfl
    · rw [hpool]
  | releasePage a =>
    obtain ⟨_, _, hpool, _, _⟩ := User.step_releasePage hstep
    rw [hpool]
  | dropContainer bc =>
    obtain ⟨_, _, hpool, _, _⟩ := User.step_dropContainer hstep
    rw [hpool]

theorem User.run_frame {L : DataBlockLayout} :
    ∀ (calls : List Call) (u v : User), u.run L calls = some v →
      { v.pool with pagesAvailable := u.pool.pagesAvailable } = u.pool := by
  intro calls
  induction calls with
  | nil =>
    intro u v hrun
    simp only [User.run, Option.some.injEq] at hrun
    subst hrun
    rfl
  | cons c cs ih =>
    intro u v hrun
    simp only [User.run] at hrun
    cases hstep : u.step L c with
    | none => rw [hstep] at hrun; cases hrun
    | some w =>
      rw [hstep] at hrun
      have h1 := User.step_frame hstep
      have h2 := ih w v hrun
      rw [← h1, ← h2]

/-- Wrapping the oldest free page and then dropping the container puts the page at the back of
the free list. -/
theorem MemoryPagesPool.wrap_then_release (L : DataBlockLayout) (q : MemoryPagesPool)
    (p : Nat) (rest : List Nat) (hitems : q.pagesAvailable.items = p :: rest) (hp : p ≠ 0)
    (hvalid : q.isPageValid p = true) (hroom : rest.length < q.pagesAvailable.size) :
    ∃ bc,
      q.getNewDataBlockContainer L 0
        = (Except.ok (some bc), { q with pagesAvailable := ⟨q.pagesAvailable.size, rest⟩ }) ∧
      bc.page = p ∧
      MemoryPagesPool.releaseCallback
          { q with pagesAvailable := ⟨q.pagesAvailable.size, rest⟩ } bc
        = (Except.ok (), { q with pagesAvailable := ⟨q.pagesAvailable.size, rest ++ [p]⟩ }) := by
  obtain ⟨⟨size, its⟩, n, ps, b, bs, f, l, cb⟩ := q
  simp only at hitems hroom
  subst hitems
  refine ⟨MemoryPagesPool.fillContainer L
      { pagesAvailable := ⟨size, rest⟩, numberOfPages := n, pageSize := ps,
        baseBlockAddress := b, baseBlockSize := bs, firstPageAddress := f,
        lastPageAddress := l, releaseBaseBlockCallback := cb } p, ?_, rfl, ?_⟩
  · simp [MemoryPagesPool.getNewDataBlockContainer, MemoryPagesPool.getPage, Fifo.pop, hp]
  · have hv2 : MemoryPagesPool.isPageValid
        { pagesAvailable := ⟨size, rest⟩, numberOfPages := n, pageSize := ps,
          baseBlockAddress := b, baseBlockSize := bs, firstPageAddress := f,
          lastPageAddress := l, releaseBaseBlockCallback := cb } p = true := by
      rw [← hvalid]
      exact MemoryPagesPool.isPageValid_congr rfl rfl rfl p
    simp [MemoryPagesPool.releaseCallback, MemoryPagesPool.releasePage,
      MemoryPagesPool.fillContainer, hv2, Fifo.push, hroom]

/-- C11, as stated, fails: the free list is a queue. In the pool of four pages of 4096 bytes at
address 65536, with no page checked out, `getNewDataBlockContainer(nullptr)` wraps page 65536
and the release action of the container puts it back behind the three other free pages, so the
next `getPage` returns 69632. -/
theorem C11_round_trip_returns_next_page :
    MemoryPagesPool.new 4096 4 65536 16384 none 0 0 = Except.ok fourPagesPool ∧
    (User.fresh fourPagesPool).checkedOut = 0 ∧
    ∃ bc pool1 pool2,
      fourPagesPool.getNewDataBlockContainer exampleLayout 0 = (Except.ok (some bc), pool1) ∧
      bc.page = 65536 ∧
      pool1.releaseCallback bc = (Except.ok (), pool2) ∧
      pool2.pagesAvailable.items = [69632, 73728, 77824, 65536] ∧
      pool2.getPage.1 = 69632 ∧ pool2.getPage.1 ≠ bc.page :=
  ⟨fourPagesPool_new, rfl, _, _, _, rfl, rfl, rfl, rfl, rfl, by decide⟩

/-- C11, amended: for a constructed pool with at least one page, a non-null base address, a
base block inside the address space and a size computation that does not overflow, in a state
where no page is checked out, `getNewDataBlockContainer(nullptr)` wraps the oldest free page
`p`, and after the container is dropped `p` is the last entry of the free list: the following
`getTotalNumberOfPages()` calls of `getPage` return the other free pages in order and then `p`,
and the first of them returns `p` exactly when `p` is the only page. -/
theorem C11_round_trip_page_goes_to_back (L : DataBlockLayout) (ps n base bs : Nat)
    (cb : Option Nat) (off u : Nat) (pool : MemoryPagesPool)
    (h : MemoryPagesPool.new ps n base bs cb off u = Except.ok pool)
    (hn : 1 ≤ pool.getTotalNumberOfPages)
    (hbase : 0 < base) (hblk : base + bs ≤ sizeMod) (hno : ps * n + off < sizeMod)
    (calls : List Call) (s : User) (hrun : (User.fresh pool).run L calls = some s)
    (hout : s.checkedOut = 0) :
    ∃ p rest bc pool1 pool2,
      s.pool.pagesAvailable.items = p :: rest ∧
      rest.length + 1 = pool.getTotalNumberOfPages ∧
      s.pool.getNewDataBlockContainer L 0 = (Except.ok (some bc), pool1) ∧
      bc.page = p ∧
      pool1.releaseCallback bc = (Except.ok (), pool2) ∧
      pool2.pagesAvailable.items = rest ++ [p] ∧
      (pool2.getPages pool.getTotalNumberOfPages).1 = rest ++ [p] ∧
      (pool2.getPage.1 = p ↔ pool.getTotalNumberOfPages = 1) := by
  have hwrap := MemoryPagesPool.new_nowrap h hno hblk
  have hitems0 := MemoryPagesPool.new_items h hwrap
  have hnull0 : 0 ∉ pool.pagesAvailable.items := by
    rw [hitems0, List.mem_map]
    rintro ⟨i, _, hi⟩
    omega
  obtain ⟨hheld, _, hlen, hsize⟩ := User.fresh_held h
  have hcap : (User.fresh pool).held.length ≤ (User.fresh pool).pool.pagesAvailable.size := by
    rw [hheld, hlen]
    exact Nat.le_of_eq hsize.symm
  obtain ⟨hperm, hsz, _⟩ := User.run_perm calls _ _ hrun hcap (by rw [hheld]; exact hnull0)
  have hframe := User.run_frame calls _ _ hrun
  have hpages : s.pages = [] := List.eq_nil_of_length_eq_zero (by
    simp only [User.checkedOut] at hout; omega)
  have hconts : s.containers = [] := List.eq_nil_of_length_eq_zero (by
    simp only [User.checkedOut] at hout; omega)
  have hsheld : s.held = s.pool.pagesAvailable.items := by
    simp [User.held, hpages, hconts]
  rw [hsheld, hheld] at hperm
  simp only [MemoryPagesPool.getTotalNumberOfPages] at hn ⊢
  cases hs : s.pool.pagesAvailable.items with
  | nil =>
    have hl := hperm.length_eq
    rw [hs, hlen] at hl
    simp at hl
    omega
  | cons p rest =>
    rw [hs] at hperm
    have hl : rest.length + 1 = pool.numberOfPages := by
      have hl := hperm.length_eq
      rw [hlen] at hl
      simpa using hl
    have hmem : p ∈ pool.pagesAvailable.items := hperm.mem_iff.mp (List.mem_cons_self _ _)
    have hp : p ≠ 0 := fun h0 => hnull0 (h0 ▸ hmem)
    have hvalid0 := MemoryPagesPool.new_items_valid h hwrap p hmem
    have hvalid : s.pool.isPageValid p = true := by
      rw [← hvalid0]
      have hf : (User.fresh pool).pool = pool := rfl
      rw [hf] at hframe
      rw [← hframe]
      exact MemoryPagesPool.isPageValid_congr rfl rfl rfl p
    have hsz2 : s.pool.pagesAvailable.size = pool.numberOfPages := by
      rw [hsz]
      exact hsize
    have hroom : rest.length < s.pool.pagesAvailable.size := by omega
    obtain ⟨bc, hwrap1, hbc, hrel⟩ :=
      MemoryPagesPool.wrap_then_release L s.pool p rest hs hp hvalid hroom
    refine ⟨p, rest, bc, _, _, rfl, hl, hwrap1, hbc, hrel, rfl, ?_, ?_⟩
    · have hall := MemoryPagesPool.getPages_all (rest ++ [p])
        { s.pool with pagesAvailable := ⟨s.pool.pagesAvailable.size, rest ++ [p]⟩ } rfl
      rw [List.length_append, List.length_singleton, hl] at hall
      rw [hall]
    · have hnd : (p :: rest).Nodup :=
        hperm.nodup_iff.mpr (MemoryPagesPool.new_items_nodup h hwrap)
      cases rest with
      | nil =>
        simp [MemoryPagesPool.getPage, Fifo.pop] at hl ⊢
        exact hl.symm
      | cons r rs =>
        have hne : r ≠ p := by
          intro hrp
          rw [List.nodup_cons] at hnd
          exact hnd.1 (hrp ▸ List.mem_cons_self _ _)
        have hl2 : pool.numberOfPages ≠ 1 := by
          simp at hl
          omega
        simp [MemoryPagesPool.getPage, Fifo.pop, hne, hl2]

/-- C11, amended, at the pool of four pages of 4096 bytes at address 65536 with nothing checked
out. -/
theorem C11_round_trip_page_goes_to_back_witness :
    (User.fresh fourPagesPool).checkedOut = 0 ∧
    ∃ p rest bc pool1 pool2,
      (User.fresh fourPagesPool).pool.pagesAvailable.items = p :: rest ∧
      rest.length + 1 = fourPagesPool.getTotalNumberOfPages ∧
      (User.fresh fourPagesPool).pool.getNewDataBlockContainer exampleLayout 0
        = (Except.ok (some bc), pool1) ∧
      bc.page = p ∧
      pool1.releaseCallback bc = (Except.ok (), pool2) ∧
      pool2.pagesAvailable.items = rest ++ [p] ∧
      (pool2.getPages fourPagesPool.getTotalNumberOfPages).1 = rest ++ [p] ∧
      (pool2.getPage.1 = p ↔ fourPagesPool.getTotalNumberOfPages = 1) :=
  ⟨rfl, C11_round_trip_page_goes_to_back exampleLayout 4096 4 65536 16384 none 0 0
    fourPagesPool fourPagesPool_new (by decide) (by decide) (by decide) (by decide) []
    (User.fresh fourPagesPool) rfl rfl⟩

/-! ## Errors of `getNewDataBlockContainer` -/

/-- C12, as stated, fails for a pool whose base address is null: in the pool made from
`pageSize = 4096`, `numberOfPages = 4`, `baseAddress = nullptr`, `baseSize = 16384`,
`firstPageOffset = 0` the free list is not empty, yet `getNewDataBlockContainer(nullptr)`
returns null, and the pool has changed: the page at the null address has left the free
list. -/
theorem C12_null_page_reads_as_no_page :
    MemoryPagesPool.new 4096 4 0 16384 none 0 0 = Except.ok nullBasePool ∧
    nullBasePool.pagesAvailable.items ≠ [] ∧
    (nullBasePool.getNewDataBlockContainer exampleLayout 0).1 = Except.ok none ∧
    (nullBasePool.getNewDataBlockContainer exampleLayout 0).2 ≠ nullBasePool ∧
    (nullBasePool.getNewDataBlockContainer exampleLayout 0).2.pagesAvailable.items
      = [4096, 8192, 12288] :=
  ⟨nullBasePool_new, by decide, rfl, by decide, rfl⟩

/-- C12, amended: in every pool state, `getNewDataBlockContainer(p)` with non-null `p` throws
exactly when `isPageValid(p)` is false, and then leaves the pool unchanged and makes no
container, hence writes no header; and in every pool state whose free list does not hold the
null address, `getNewDataBlockContainer(nullptr)` returns null exactly when the free list is
empty, and then leaves the pool unchanged. -/
theorem C12_wrap_errors (L : DataBlockLayout) (self : MemoryPagesPool) (p : Nat)
    (hp : p ≠ 0) :
    ((∃ line, (self.getNewDataBlockContainer L p).1 = Except.error line)
      ↔ self.isPageValid p = false) ∧
    ((∃ line, (self.getNewDataBlockContainer L p).1 = Except.error line) →
      (self.getNewDataBlockContainer L p).2 = self ∧
      (self.getNewDataBlockContainer L p).2.pagesAvailable.items = self.pagesAvailable.items ∧
      ∀ bc, (self.getNewDataBlockContainer L p).1 ≠ Except.ok (some bc)) ∧
    (0 ∉ self.pagesAvailable.items →
      ((self.getNewDataBlockContainer L 0).1 = Except.ok none
        ↔ self.pagesAvailable.items = []) ∧
      ((self.getNewDataBlockContainer L 0).1 = Except.ok none →
        (self.getNewDataBlockContainer L 0).2 = self)) := by
  refine ⟨?_, ?_, ?_⟩
  · cases hv : self.isPageValid p <;>
      simp [MemoryPagesPool.getNewDataBlockContainer, hp, hv]
  · cases hv : self.isPageValid p <;>
      simp [MemoryPagesPool.getNewDataBlockContainer, hp, hv]
  · intro hnull
    have hnullptr : (self.getNewDataBlockContainer L 0).1 = Except.ok none
        ↔ self.pagesAvailable.items = [] := by
      obtain ⟨⟨size, items⟩, n, ps, b, bs, f, l, cb⟩ := self
      cases items with
      | nil =>
        simp [MemoryPagesPool.getNewDataBlockContainer, MemoryPagesPool.getPage, Fifo.pop]
      | cons x rest =>
        have hx : x ≠ 0 := fun h0 => hnull (by simp [h0])
        simp [MemoryPagesPool.getNewDataBlockContainer, MemoryPagesPool.getPage, Fifo.pop, hx]
    refine ⟨hnullptr, ?_⟩
    intro hnone
    have hempty := hnullptr.mp hnone
    simp [MemoryPagesPool.getNewDataBlockContainer, MemoryPagesPool.getPage, Fifo.pop, hempty]

/-- C12, amended, at the misaligned address 4097 in the pool whose first page is at the null
address, where the call throws and changes nothing, and at the misaligned address 65537 in the
pool of four pages of 4096 bytes at address 65536, whose free list holds no null address. -/
theorem C12_wrap_errors_witness :
    (nullBasePool.getNewDataBlockContainer exampleLayout 4097).1 = Except.error 103 ∧
    (fourPagesPool.getNewDataBlockContainer exampleLayout 65537).1 = Except.error 103 ∧
    0 ∉ fourPagesPool.pagesAvailable.items ∧
    (((∃ line, (nullBasePool.getNewDataBlockContainer exampleLayout 4097).1
        = Except.error line)
      ↔ nullBasePool.isPageValid 4097 = false) ∧
    ((∃ line, (nullBasePool.getNewDataBlockContainer exampleLayout 4097).1
        = Except.error line) →
      (nullBasePool.getNewDataBlockContainer exampleLayout 4097).2 = nullBasePool ∧
      (nullBasePool.getNewDataBlockContainer exampleLayout 4097).2.pagesAvailable.items
        = nullBasePool.pagesAvailable.items ∧
      ∀ bc, (nullBasePool.getNewDataBlockContainer exampleLayout 4097).1
        ≠ Except.ok (some bc)) ∧
    (0 ∉ nullBasePool.pagesAvailable.items →
      ((nullBasePool.getNewDataBlockContainer exampleLayout 0).1 = Except.ok none
        ↔ nullBasePool.pagesAvailable.items = []) ∧
      ((nullBasePool.getNewDataBlockContainer exampleLayout 0).1 = Except.ok none →
        (nullBasePool.getNewDataBlockContainer exampleLayout 0).2 = nullBasePool))) ∧
    (((∃ line, (fourPagesPool.getNewDataBlockContainer exampleLayout 65537).1
        = Except.error line)
      ↔ fourPagesPool.isPageValid 65537 = false) ∧
    ((∃ line, (fourPagesPool.getNewDataBlockContainer exampleLayout 65537).1
        = Except.error line) →
      (fourPagesPool.getNewDataBlockContainer exampleLayout 65537).2 = fourPagesPool ∧
      (fourPagesPool.getNewDataBlockContainer exampleLayout 65537).2.pagesAvailable.items
        = fourPagesPool.pagesAvailable.items ∧
      ∀ bc, (fourPagesPool.getNewDataBlockContainer exampleLayout 65537).1
        ≠ Except.ok (some bc)) ∧
    (0 ∉ fourPagesPool.pagesAvailable.items →
      ((fourPagesPool.getNewDataBlockContainer exampleLayout 0).1 = Except.ok none
        ↔ fourPagesPool.pagesAvailable.items = []) ∧
      ((fourPagesPool.getNewDataBlockContainer exampleLayout 0).1 = Except.ok none →
        (fourPagesPool.getNewDataBlockContainer exampleLayout 0).2 = fourPagesPool))) :=
  ⟨rfl, rfl, by decide, C12_wrap_errors exampleLayout nullBasePool 4097 (by decide),
    C12_wrap_errors exampleLayout fourPagesPool 65537 (by decide)⟩

/-! ## The header written by `getNewDataBlockContainer` -/

theorem tinyPagesPool_new : MemoryPagesPool.new 1 4 65536 4 none 0 0 = Except.ok tinyPagesPool := by
  rfl

/-- Every container that `getNewDataBlockContainer` returns was filled by lines 107-127 for a
pool with the same page size. -/
theorem MemoryPagesPool.getNewDataBlockContainer_some {L : DataBlockLayout}
    {self : MemoryPagesPool} {a : Nat} {bc : DataBlockContainer}
    (h : (self.getNewDataBlockContainer L a).1 = Except.ok (some bc)) :
    ∃ q : MemoryPagesPool, q.pageSize = self.pageSize ∧ bc = q.fillContainer L bc.page := by
  obtain ⟨⟨size, items⟩, n, ps, b, bs, f, l, cb⟩ := self
  by_cases ha : a = 0
  · subst ha
    cases items with
    | nil =>
      simp [MemoryPagesPool.getNewDataBlockContainer, MemoryPagesPool.getPage, Fifo.pop] at h
    | cons x rest =>
      by_cases hx : x = 0
      · simp [MemoryPagesPool.getNewDataBlockContainer, MemoryPagesPool.getPage, Fifo.pop,
          hx] at h
      · simp [MemoryPagesPool.getNewDataBlockContainer, MemoryPagesPool.getPage, Fifo.pop,
          hx] at h
        subst h
        exact ⟨_, rfl, rfl⟩
  · cases hv : MemoryPagesPool.isPageValid
        { pagesAvailable := ⟨size, items⟩, numberOfPages := n, pageSize := ps,
          baseBlockAddress := b, baseBlockSize := bs, firstPageAddress := f,
          lastPageAddress := l, releaseBaseBlockCallback := cb } a
    · simp [MemoryPagesPool.getNewDataBlockContainer, ha, hv] at h
    · simp [MemoryPagesPool.getNewDataBlockContainer, ha, hv] at h
      subst h
      exact ⟨_, rfl, rfl⟩

/-- When a page is smaller than `sizeof(DataBlock)`, the header and the payload it announces
do not add up to the page size, whatever the layout. -/
theorem MemoryPagesPool.fillContainer_small_page (L : DataBlockLayout) (self : MemoryPagesPool)
    (p : Nat) (hsmall : self.pageSize < L.sizeofDataBlock) :
    L.sizeofDataBlock + (self.fillContainer L p).block.header.dataSize ≠ self.pageSize := by
  omega

/-- C13, as stated, fails for pages smaller than `sizeof(DataBlock)`: the constructor accepts
every non-zero page size. In the pool of four pages of 1 byte at address 65536, with a
`DataBlock` of 56 bytes and a 32-bit `dataSize` field, the container on page 65536 has `data =
65592` and `dataSize = 4294967241` (the wrapped difference `1 - 56`, truncated), so the
payload it announces ends far beyond the page. -/
theorem C13_dataSize_wraps_for_small_pages :
    MemoryPagesPool.new 1 4 65536 4 none 0 0 = Except.ok tinyPagesPool ∧
    ∃ bc pool1,
      tinyPagesPool.getNewDataBlockContainer exampleLayout 0 = (Except.ok (some bc), pool1) ∧
      bc.page = 65536 ∧ bc.block.data = 65592 ∧ bc.block.header.dataSize = 4294967241 ∧
      ¬ (bc.block.data + bc.block.header.dataSize ≤ bc.page + tinyPagesPool.getPageSize) ∧
      exampleLayout.sizeofDataBlock + bc.block.header.dataSize ≠ tinyPagesPool.getPageSize :=
  ⟨tinyPagesPool_new, _, _, rfl, rfl, rfl, rfl, by decide, by decide⟩

/-- C13, amended: for every pool state with `sizeof(DataBlock) <= pageSize`, where the
difference fits the header field `dataSize`, and every container returned by
`getNewDataBlockContainer` whose page has room for a `DataBlock` below the end of the address
space: the header has the undefined sentinels in `blockId`, `linkId`, `equipmentId` and
`timeframeId`, the block type `H_BASE`, `headerSize = sizeof(DataBlockHeaderBase)`, `data =
page + sizeof(DataBlock)` and `dataSize = pageSize - sizeof(DataBlock)`, so that `data +
dataSize` is the end of the page. -/
theorem C13_default_header (L : DataBlockLayout) (self : MemoryPagesPool) (a : Nat)
    (bc : DataBlockContainer)
    (hres : (self.getNewDataBlockContainer L a).1 = Except.ok (some bc))
    (hsize : L.sizeofDataBlock ≤ self.pageSize) (hps : self.pageSize < sizeMod)
    (hfield : L.dataSizeMod = 0 ∨ self.pageSize - L.sizeofDataBlock < L.dataSizeMod)
    (haddr : bc.page + L.sizeofDataBlock < sizeMod) :
    bc.block.header.blockId = L.undefinedBlockId ∧
    bc.block.header.linkId = L.undefinedLinkId ∧
    bc.block.header.equipmentId = L.undefinedEquipmentId ∧
    bc.block.header.timeframeId = L.undefinedTimeframeId ∧
    bc.block.header.blockType = L.H_BASE ∧
    bc.block.header.headerSize = L.sizeofDataBlockHeaderBase ∧
    bc.block.data = bc.page + L.sizeofDataBlock ∧
    bc.block.header.dataSize = self.pageSize - L.sizeofDataBlock ∧
    bc.block.data + bc.block.header.dataSize = bc.page + self.pageSize ∧
    bc.dataSize = self.pageSize := by
  obtain ⟨q, hq, hbc⟩ := MemoryPagesPool.getNewDataBlockContainer_some hres
  have hdata : bc.block.data = bc.page + L.sizeofDataBlock := by
    rw [hbc]
    simp only [MemoryPagesPool.fillContainer]
    exact Nat.mod_eq_of_lt haddr
  have hds : bc.block.header.dataSize = self.pageSize - L.sizeofDataBlock := by
    rw [hbc]
    simp only [MemoryPagesPool.fillContainer, hq]
    have h1 : L.sizeofDataBlock % sizeMod = L.sizeofDataBlock :=
      Nat.mod_eq_of_lt (by omega)
    have h2 : (self.pageSize + sizeMod - L.sizeofDataBlock) % sizeMod
        = self.pageSize - L.sizeofDataBlock := by
      have h3 : self.pageSize + sizeMod - L.sizeofDataBlock
          = (self.pageSize - L.sizeofDataBlock) + sizeMod := by omega
      rw [h3, Nat.add_mod_right]
      exact Nat.mod_eq_of_lt (by omega)
    rw [h1, h2]
    rcases hfield with h0 | hlt
    · rw [h0, Nat.mod_zero]
    · exact Nat.mod_eq_of_lt hlt
  refine ⟨?_, ?_, ?_, ?_, ?_, ?_, hdata, hds, ?_, ?_⟩
  · rw [hbc]; rfl
  · rw [hbc]; rfl
  · rw [hbc]; rfl
  · rw [hbc]; rfl
  · rw [hbc]; rfl
  · rw [hbc]; rfl
  · rw [hdata, hds]; omega
  · rw [hbc]; exact hq

/-- C13, amended, at the pool of four pages of 4096 bytes at address 65536 with a `DataBlock`
of 56 bytes: the container on the first page announces 4040 bytes of payload from 65592, which
end where the page ends. -/
theorem C13_default_header_witness :
    (fourPagesPool.getNewDataBlockContainer exampleLayout 0).1
      = Except.ok (some (fourPagesPool.fillContainer exampleLayout 65536)) ∧
    (fourPagesPool.fillContainer exampleLayout 65536).block.header.dataSize = 4040 ∧
    (fourPagesPool.fillContainer exampleLayout 65536).block.data = 65592 ∧
    ((fourPagesPool.fillContainer exampleLayout 65536).block.header.blockId
        = exampleLayout.undefinedBlockId ∧
      (fourPagesPool.fillContainer exampleLayout 65536).block.header.linkId
        = exampleLayout.undefinedLinkId ∧
      (fourPagesPool.fillContainer exampleLayout 65536).block.header.equipmentId
        = exampleLayout.undefinedEquipmentId ∧
      (fourPagesPool.fillContainer exampleLayout 65536).block.header.timeframeId
        = exampleLayout.undefinedTimeframeId ∧
      (fourPagesPool.fillContainer exampleLayout 65536).block.header.blockType
        = exampleLayout.H_BASE ∧
      (fourPagesPool.fillContainer exampleLayout 65536).block.header.headerSize
        = exampleLayout.sizeofDataBlockHeaderBase ∧
      (fourPagesPool.fillContainer exampleLayout 65536).block.data
        = (fourPagesPool.fillContainer exampleLayout 65536).page
          + exampleLayout.sizeofDataBlock ∧
      (fourPagesPool.fillContainer exampleLayout 65536).block.header.dataSize
        = fourPagesPool.pageSize - exampleLayout.sizeofDataBlock ∧
      (fourPagesPool.fillContainer exampleLayout 65536).block.data
          + (fourPagesPool.fillContainer exampleLayout 65536).block.header.dataSize
        = (fourPagesPool.fillContainer exampleLayout 65536).page + fourPagesPool.pageSize ∧
      (fourPagesPool.fillContainer exampleLayout 65536).dataSize = fourPagesPool.pageSize) :=
  ⟨rfl, rfl, rfl,
    C13_default_header exampleLayout fourPagesPool 0
      (fourPagesPool.fillContainer exampleLayout 65536) rfl (by decide) (by decide)
      (Or.inr (by decide)) (by decide)⟩

/-! ## The release callback of the base block -/

/-- No call changes the base address or the release callback of the pool. -/
theorem MemoryPagesPool.after_frame (L : DataBlockLayout) (self : MemoryPagesPool)
    (c : PoolCall) :
    (self.after L c).baseBlockAddress = self.baseBlockAddress ∧
    (self.after L c).releaseBaseBlockCallback = self.releaseBaseBlockCallback := by
  obtain ⟨⟨size, items⟩, n, ps, b, bs, f, l, cb⟩ := self
  cases c with
  | getPage =>
    cases items <;> simp [MemoryPagesPool.after, MemoryPagesPool.getPage, Fifo.pop]
  | releasePage a =>
    simp only [MemoryPagesPool.after, MemoryPagesPool.releasePage]
    split <;> simp
  | getNewDataBlockContainer a =>
    simp only [MemoryPagesPool.after, MemoryPagesPool.getNewDataBlockContainer]
    split
    · cases items with
      | nil => simp [MemoryPagesPool.getPage, Fifo.pop]
      | cons x rest =>
        simp only [MemoryPagesPool.getPage, Fifo.pop]
        split <;> simp
    · split <;> simp
  | dropContainer bc =>
    simp only [MemoryPagesPool.after, MemoryPagesPool.releaseCallback,
      MemoryPagesPool.releasePage]
    split <;> simp
  | isPageValid p => exact ⟨rfl, rfl⟩
  | getPageSize => exact ⟨rfl, rfl⟩
  | getTotalNumberOfPages => exact ⟨rfl, rfl⟩
  | getNumberOfPagesAvailable => exact ⟨rfl, rfl⟩
  | getBaseBlockAddress => exact ⟨rfl, rfl⟩
  | getBaseBlockSize => exact ⟨rfl, rfl⟩

theorem MemoryPagesPool.afterAll_frame (L : DataBlockLayout) :
    ∀ (calls : List PoolCall) (self : MemoryPagesPool),
      (self.afterAll L calls).baseBlockAddress = self.baseBlockAddress ∧
      (self.afterAll L calls).releaseBaseBlockCallback = self.releaseBaseBlockCallback := by
  intro calls
  induction calls with
  | nil => intro self; exact ⟨rfl, rfl⟩
  | cons c cs ih =>
    intro self
    obtain ⟨h1, h2⟩ := ih (self.after L c)
    obtain ⟨h3, h4⟩ := MemoryPagesPool.after_frame L self c
    simp only [MemoryPagesPool.afterAll, List.foldl_cons] at h1 h2 ⊢
    exact ⟨h1.trans h3, h2.trans h4⟩

/-- C14, as stated, fails for a null base address: line 58 calls the callback only if the base
address is not null. The pool made from `pageSize = 4096`, `numberOfPages = 4`, `baseAddress =
nullptr`, `baseSize = 16384`, the callback 7 and `firstPageOffset = 0` is constructed, and its
destructor makes no call. -/
theorem C14_null_base_callback_not_invoked :
    MemoryPagesPool.new 4096 4 0 16384 (some 7) 0 0
      = Except.ok { nullBasePool with releaseBaseBlockCallback := some 7 } ∧
    MemoryPagesPool.destructor { nullBasePool with releaseBaseBlockCallback := some 7 } = [] :=
  ⟨rfl, rfl⟩

theorem MemoryPagesPool.invokedAll_nil (L : DataBlockLayout) :
    ∀ (calls : List PoolCall) (self : MemoryPagesPool), self.invokedAll L calls = [] := by
  intro calls
  induction calls with
  | nil => intro self; rfl
  | cons c cs ih =>
    intro self
    simp only [MemoryPagesPool.invokedAll, ih, List.append_nil]
    cases c <;> rfl

/-- C14, amended: for a pool constructed with a release callback, no call of `getPage`,
`releasePage`, `getNewDataBlockContainer`, `isPageValid`, a getter or the release action of a
container invokes the callback, in any state; and after any sequence of such calls, whether
they return or throw, the destructor invokes the callback exactly once, with the base address
given to the constructor, if that address is not null, and does not invoke it if the address is
null. Over the life of the pool the callback is thus invoked exactly once for a non-null base
address. -/
theorem C14_callback_at_destruction (L : DataBlockLayout) (ps n base bs callback off u : Nat)
    (pool : MemoryPagesPool)
    (h : MemoryPagesPool.new ps n base bs (some callback) off u = Except.ok pool)
    (calls : List PoolCall) :
    (∀ (s : MemoryPagesPool) (c : PoolCall), s.invoked L c = []) ∧
    pool.invokedAll L calls = [] ∧
    (pool.afterAll L calls).destructor = (if base = 0 then [] else [(callback, base)]) ∧
    pool.lifetime L calls = (if base = 0 then [] else [(callback, base)]) ∧
    (base ≠ 0 →
      (pool.lifetime L calls).length = 1 ∧
      (pool.lifetime L calls).count (callback, base) = 1) := by
  obtain ⟨_, _, _, _, _, hb, _, _, _, _, hcb⟩ := MemoryPagesPool.new_ok h
  obtain ⟨h1, h2⟩ := MemoryPagesPool.afterAll_frame L calls pool
  have hd : (pool.afterAll L calls).destructor
      = (if base = 0 then [] else [(callback, base)]) := by
    simp only [MemoryPagesPool.destructor, h1, h2, hb, hcb]
    by_cases hz : base = 0 <;> simp [hz]
  have hnone := MemoryPagesPool.invokedAll_nil L calls pool
  have hlife : pool.lifetime L calls = (if base = 0 then [] else [(callback, base)]) := by
    simp only [MemoryPagesPool.lifetime, hnone, List.nil_append, hd]
  refine ⟨?_, hnone, hd, hlife, ?_⟩
  · intro s c
    cases c <;> rfl
  · intro hne
    rw [hlife, if_neg hne]
    exact ⟨rfl, by simp⟩

/-- C14, amended, at the pool of four pages of 4096 bytes at address 65536 with the callback
7, after a `getPage`, a release of an invalid address and a `getNewDataBlockContainer`: one
invocation over the life of the pool, made by the destructor. -/
theorem C14_callback_at_destruction_witness :
    MemoryPagesPool.lifetime exampleLayout
        { fourPagesPool with releaseBaseBlockCallback := some 7 }
        [PoolCall.getPage, PoolCall.releasePage 1, PoolCall.getNewDataBlockContainer 0]
      = [(7, 65536)] ∧
    ((∀ (s : MemoryPagesPool) (c : PoolCall), s.invoked exampleLayout c = []) ∧
    MemoryPagesPool.invokedAll exampleLayout
        { fourPagesPool with releaseBaseBlockCallback := some 7 }
        [PoolCall.getPage, PoolCall.releasePage 1, PoolCall.getNewDataBlockContainer 0]
      = [] ∧
    (MemoryPagesPool.afterAll exampleLayout
        { fourPagesPool with releaseBaseBlockCallback := some 7 }
        [PoolCall.getPage, PoolCall.releasePage 1, PoolCall.getNewDataBlockContainer 0]
      ).destructor = (if 65536 = 0 then [] else [(7, 65536)]) ∧
    MemoryPagesPool.lifetime exampleLayout
        { fourPagesPool with releaseBaseBlockCallback := some 7 }
        [PoolCall.getPage, PoolCall.releasePage 1, PoolCall.getNewDataBlockContainer 0]
      = (if 65536 = 0 then [] else [(7, 65536)]) ∧
    (65536 ≠ 0 →
      (MemoryPagesPool.lifetime exampleLayout
        { fourPagesPool with releaseBaseBlockCallback := some 7 }
        [PoolCall.getPage, PoolCall.releasePage 1, PoolCall.getNewDataBlockContainer 0]
        ).length = 1 ∧
      (MemoryPagesPool.lifetime exampleLayout
        { fourPagesPool with releaseBaseBlockCallback := some 7 }
        [PoolCall.getPage, PoolCall.releasePage 1, PoolCall.getNewDataBlockContainer 0]
        ).count (7, 65536) = 1)) :=
  ⟨rfl, C14_callback_at_destruction exampleLayout 4096 4 65536 16384 7 0 0
    { fourPagesPool with releaseBaseBlockCallback := some 7 } rfl
    [PoolCall.getPage, PoolCall.releasePage 1, PoolCall.getNewDataBlockContainer 0]⟩

/-! ## RAW data header: layout and default values -/

/-- C17: the default words of `RAWDataHeaderV4`, read through its bit-fields, give `version =
4`, `headerSize = 0x40`, which is the size of the header in bytes, `blockLength = 0`, and
all-ones ids: `feeId = 0xFFFF`, `linkId = 0xFF`, `cruId = 0xFFF`, `dpwId = 0xF`. -/
theorem C17_v4_default_constants :
    readField RAWDataHeaderV4 Field.version (defaultImage RAWDataHeaderV4) = some 4 ∧
    readField RAWDataHeaderV4 Field.headerSize (defaultImage RAWDataHeaderV4) = some 0x40 ∧
    (RAWDataHeaderV4.map WordDecl.bits).sum = 0x40 * 8 ∧
    readField RAWDataHeaderV4 Field.blockLength (defaultImage RAWDataHeaderV4) = some 0 ∧
    readField RAWDataHeaderV4 Field.feeId (defaultImage RAWDataHeaderV4) = some 0xFFFF ∧
    readField RAWDataHeaderV4 Field.linkId (defaultImage RAWDataHeaderV4) = some 0xFF ∧
    readField RAWDataHeaderV4 Field.cruId (defaultImage RAWDataHeaderV4) = some 0xFFF ∧
    readField RAWDataHeaderV4 Field.dpwId (defaultImage RAWDataHeaderV4) = some 0xF := by
  decide

/-- C20, as stated, fails for `RAWDataHeaderV3`: its `word0`, which holds `linkId`, defaults to
`0x0`, so the default `linkId` is 0 and not `0xFF`. -/
theorem C20_v3_default_linkId_is_zero :
    locate Field.linkId RAWDataHeaderV3
      = some { word := Word.word0, index := 3, bits := 32, offset := 0, width := 8 } ∧
    (defaultImage RAWDataHeaderV3).getD 3 0 = 0 ∧
    readField RAWDataHeaderV3 Field.linkId (defaultImage RAWDataHeaderV3) = some 0 ∧
    readField RAWDataHeaderV3 Field.linkId (defaultImage RAWDataHeaderV3) ≠ some 0xFF := by
  decide

/-- C20, amended: the default words of `RAWDataHeaderV2`, read through its bit-fields, give
`version = 2`, `feeId = 0xFFFF`, `linkId = 0xFF`, `headerSize = 4` and `blockLength = 0`;
those of `RAWDataHeaderV3` give `version = 3`, `feeId = 0xFFFF`, and `linkId = 0`. -/
theorem C20_older_versions_default_constants :
    readField RAWDataHeaderV2 Field.version (defaultImage RAWDataHeaderV2) = some 2 ∧
    readField RAWDataHeaderV2 Field.feeId (defaultImage RAWDataHeaderV2) = some 0xFFFF ∧
    readField RAWDataHeaderV2 Field.linkId (defaultImage RAWDataHeaderV2) = some 0xFF ∧
    readField RAWDataHeaderV2 Field.headerSize (defaultImage RAWDataHeaderV2) = some 4 ∧
    RAWDataHeaderV2.length = 4 ∧
    RAWDataHeaderV2.map WordDecl.bits = [64, 64, 64, 64] ∧
    readField RAWDataHeaderV2 Field.blockLength (defaultImage RAWDataHeaderV2) = some 0 ∧
    readField RAWDataHeaderV3 Field.version (defaultImage RAWDataHeaderV3) = some 3 ∧
    readField RAWDataHeaderV3 Field.feeId (defaultImage RAWDataHeaderV3) = some 0xFFFF ∧
    readField RAWDataHeaderV3 Field.linkId (defaultImage RAWDataHeaderV3) = some 0 := by
  decide

theorem mem_allFields (f : Field) : f ∈ allFields := by
  cases f <;> decide

/-- What the check `wellFormedLayout` establishes. -/
theorem wellFormedLayout_spec {decl : List WordDecl} (h : wellFormedLayout decl = true) :
    (∀ f b, locate f decl = some b → b.offset + b.width ≤ b.bits) ∧
    (∀ f g b c, locate f decl = some b → locate g decl = some c → f ≠ g →
      b.index = c.index → b.offset + b.width ≤ c.offset ∨ c.offset + c.width ≤ b.offset) := by
  simp only [wellFormedLayout, List.all_eq_true, Bool.and_eq_true, Bool.or_eq_true,
    decide_eq_true_eq] at h
  constructor
  · intro f b hb
    have h1 := (h f (mem_allFields f)).1
    simp only [wellPlaced, hb, decide_eq_true_eq] at h1
    exact h1
  · intro f g b c hb hc hne hidx
    have h1 := (h f (mem_allFields f)).2 g (mem_allFields g)
    rcases h1 with h1 | h1
    · exact absurd h1 hne
    · simp only [disjointIn, hb, hc, Bool.or_eq_true, decide_eq_true_eq] at h1
      rcases h1 with (h1 | h1) | h1
      · exact absurd hidx h1
      · exact Or.inl h1
      · exact Or.inr h1

theorem wellFormedLayout_V4 : wellFormedLayout RAWDataHeaderV4 = true := by
  decide

/-- C16: `RAWDataHeaderV4` is 16 words of 32 bits, 64 bytes; in every word the members lie
within the word, are pairwise disjoint and cover all 32 bits; and every member is at the word
and bit range of the wire table. The words 4, 5, 8, 9, 12 and 13 hold one reserved member each
and default to zero. -/
theorem C16_v4_wire_table :
    RAWDataHeaderV4.length = 16 ∧
    RAWDataHeaderV4.map WordDecl.bits = List.replicate 16 32 ∧
    (RAWDataHeaderV4.map WordDecl.bits).sum = 64 * 8 ∧
    (∀ f b, locate f RAWDataHeaderV4 = some b → b.offset + b.width ≤ b.bits) ∧
    (∀ f g b c, locate f RAWDataHeaderV4 = some b → locate g RAWDataHeaderV4 = some c →
      f ≠ g → b.index = c.index →
      b.offset + b.width ≤ c.offset ∨ c.offset + c.width ≤ b.offset) ∧
    (List.range 16).map (coveredBits RAWDataHeaderV4)
      = List.replicate 16 (List.range 32) ∧
    locate Field.version RAWDataHeaderV4 = some ⟨Word.word3, 0, 32, 0, 8⟩ ∧
    locate Field.headerSize RAWDataHeaderV4 = some ⟨Word.word3, 0, 32, 8, 8⟩ ∧
    locate Field.blockLength RAWDataHeaderV4 = some ⟨Word.word3, 0, 32, 16, 16⟩ ∧
    locate Field.feeId RAWDataHeaderV4 = some ⟨Word.word2, 1, 32, 0, 16⟩ ∧
    locate Field.priorityBit RAWDataHeaderV4 = some ⟨Word.word2, 1, 32, 16, 8⟩ ∧
    locate Field.zero2 RAWDataHeaderV4 = some ⟨Word.word2, 1, 32, 24, 8⟩ ∧
    locate Field.offsetNextPacket RAWDataHeaderV4 = some ⟨Word.word1, 2, 32, 0, 16⟩ ∧
    locate Field.memorySize RAWDataHeaderV4 = some ⟨Word.word1, 2, 32, 16, 16⟩ ∧
    locate Field.linkId RAWDataHeaderV4 = some ⟨Word.word0, 3, 32, 0, 8⟩ ∧
    locate Field.packetCounter RAWDataHeaderV4 = some ⟨Word.word0, 3, 32, 8, 8⟩ ∧
    locate Field.cruId RAWDataHeaderV4 = some ⟨Word.word0, 3, 32, 16, 12⟩ ∧
    locate Field.dpwId RAWDataHeaderV4 = some ⟨Word.word0, 3, 32, 28, 4⟩ ∧
    locate Field.triggerOrbit RAWDataHeaderV4 = some ⟨Word.word7, 4, 32, 0, 32⟩ ∧
    locate Field.heartbeatOrbit RAWDataHeaderV4 = some ⟨Word.word6, 5, 32, 0, 32⟩ ∧
    locate Field.triggerBC RAWDataHeaderV4 = some ⟨Word.word11, 8, 32, 0, 12⟩ ∧
    locate Field.zero11_0 RAWDataHeaderV4 = some ⟨Word.word11, 8, 32, 12, 4⟩ ∧
    locate Field.heartbeatBC RAWDataHeaderV4 = some ⟨Word.word11, 8, 32, 16, 12⟩ ∧
    locate Field.zero11_1 RAWDataHeaderV4 = some ⟨Word.word11, 8, 32, 28, 4⟩ ∧
    locate Field.triggerType RAWDataHeaderV4 = some ⟨Word.word10, 9, 32, 0, 32⟩ ∧
    locate Field.detectorField RAWDataHeaderV4 = some ⟨Word.word15, 12, 32, 0, 16⟩ ∧
    locate Field.par RAWDataHeaderV4 = some ⟨Word.word15, 12, 32, 16, 16⟩ ∧
    locate Field.stopBit RAWDataHeaderV4 = some ⟨Word.word14, 13, 32, 0, 8⟩ ∧
    locate Field.pagesCounter RAWDataHeaderV4 = some ⟨Word.word14, 13, 32, 8, 16⟩ ∧
    locate Field.zero14 RAWDataHeaderV4 = some ⟨Word.word14, 13, 32, 24, 8⟩ ∧
    locate Field.zero5 RAWDataHeaderV4 = some ⟨Word.word5, 6, 32, 0, 32⟩ ∧
    locate Field.zero4 RAWDataHeaderV4 = some ⟨Word.word4, 7, 32, 0, 32⟩ ∧
    locate Field.zero9 RAWDataHeaderV4 = some ⟨Word.word9, 10, 32, 0, 32⟩ ∧
    locate Field.zero8 RAWDataHeaderV4 = some ⟨Word.word8, 11, 32, 0, 32⟩ ∧
    locate Field.zero13 RAWDataHeaderV4 = some ⟨Word.word13, 14, 32, 0, 32⟩ ∧
    locate Field.zero12 RAWDataHeaderV4 = some ⟨Word.word12, 15, 32, 0, 32⟩ ∧
    [6, 7, 10, 11, 14, 15].map (fun i => (defaultImage RAWDataHeaderV4).getD i 1)
      = [0, 0, 0, 0, 0, 0] := by
  obtain ⟨hplace, hdisj⟩ := wellFormedLayout_spec wellFormedLayout_V4
  refine ⟨rfl, rfl, rfl, hplace, hdisj, ?_, ?_⟩
  · decide
  · decide

/-- C19: every member of `RAWDataHeaderV3` other than the reserved bits of its `word0` is at
the same word and bit range in `RAWDataHeaderV4`, so reading it from any image through either
layout gives the same value; the two layouts have the same words, and they differ only in
bits 8-31 of `word0`, which are reserved in v3 and hold `packetCounter`, `cruId` and `dpwId` in
v4. -/
theorem C19_v3_layout_within_v4 :
    (∀ f ∈ sharedV3V4,
      (locate f RAWDataHeaderV3).isSome = true ∧
        locate f RAWDataHeaderV3 = locate f RAWDataHeaderV4) ∧
    (∀ (image : List Nat), ∀ f ∈ sharedV3V4,
      readField RAWDataHeaderV3 f image = readField RAWDataHeaderV4 f image) ∧
    RAWDataHeaderV3.map WordDecl.word = RAWDataHeaderV4.map WordDecl.word ∧
    RAWDataHeaderV3.map WordDecl.bits = RAWDataHeaderV4.map WordDecl.bits ∧
    (∀ f, locate f RAWDataHeaderV3 ≠ locate f RAWDataHeaderV4 →
      f ∈ [Field.zero0, Field.packetCounter, Field.cruId, Field.dpwId]) ∧
    locate Field.zero0 RAWDataHeaderV3 = some ⟨Word.word0, 3, 32, 8, 24⟩ ∧
    locate Field.zero0 RAWDataHeaderV4 = none ∧
    locate Field.packetCounter RAWDataHeaderV3 = none ∧
    locate Field.cruId RAWDataHeaderV3 = none ∧
    locate Field.dpwId RAWDataHeaderV3 = none ∧
    locate Field.packetCounter RAWDataHeaderV4 = some ⟨Word.word0, 3, 32, 8, 8⟩ ∧
    locate Field.cruId RAWDataHeaderV4 = some ⟨Word.word0, 3, 32, 16, 12⟩ ∧
    locate Field.dpwId RAWDataHeaderV4 = some ⟨Word.word0, 3, 32, 28, 4⟩ := by
  have hsame : ∀ f ∈ sharedV3V4,
      (locate f RAWDataHeaderV3).isSome = true ∧
        locate f RAWDataHeaderV3 = locate f RAWDataHeaderV4 := by
    decide
  refine ⟨hsame, ?_, rfl, rfl, ?_, ?_⟩
  · intro image f hf
    simp only [readField, (hsame f hf).2]
  · intro f
    cases f <;> decide
  · decide

/-! ## RAW data header: writing and reading members -/

theorem testBit_getBits (o w x j : Nat) :
    (getBits o w x).testBit j = (decide (j < w) && x.testBit (o + j)) := by
  simp only [getBits, mask, Nat.testBit_and, Nat.testBit_shiftRight,
    Nat.testBit_two_pow_sub_one]
  rw [Bool.and_comm]

theorem testBit_setBits (bits o w x v i : Nat) :
    (setBits bits o w x v).testBit i
      = ((x.testBit i && (decide (i < bits) ^^ (decide (i ≥ o) && decide (i - o < w))))
          || (decide (i ≥ o) && (v.testBit (i - o) && decide (i - o < w)))) := by
  simp only [setBits, mask, Nat.testBit_and, Nat.testBit_or, Nat.testBit_xor,
    Nat.testBit_shiftLeft, Nat.testBit_two_pow_sub_one]

/-- Reading a bit-field that was just written gives the value, cut to the width. -/
theorem getBits_setBits_same (bits o w x v : Nat) (h : o + w ≤ bits) :
    getBits o w (setBits bits o w x v) = v % 2 ^ w := by
  apply Nat.eq_of_testBit_eq
  intro j
  rw [testBit_getBits, testBit_setBits, Nat.testBit_mod_two_pow]
  by_cases hj : j < w
  · have h1 : o + j < bits := by omega
    have h3 : o + j - o = j := by omega
    simp [hj, h1, h3]
  · simp [hj]

/-- Writing a bit-field does not change a bit-field that shares no bit with it. -/
theorem getBits_setBits_other (bits o1 w1 o2 w2 x v : Nat) (hx : x < 2 ^ bits)
    (hd : o1 + w1 ≤ o2 ∨ o2 + w2 ≤ o1) :
    getBits o1 w1 (setBits bits o2 w2 x v) = getBits o1 w1 x := by
  apply Nat.eq_of_testBit_eq
  intro j
  rw [testBit_getBits, testBit_getBits, testBit_setBits]
  by_cases hj : j < w1
  · by_cases hb : o1 + j < bits
    · by_cases h2 : o1 + j ≥ o2
      · have h3 : ¬ (o1 + j - o2 < w2) := by omega
        simp [hj, hb, h2, h3]
      · simp [hj, hb, h2]
    · have hx2 : x.testBit (o1 + j) = false :=
        Nat.testBit_lt_two_pow
          (Nat.lt_of_lt_of_le hx (Nat.pow_le_pow_right (by decide) (by omega)))
      by_cases h2 : o1 + j ≥ o2
      · have h3 : ¬ (o1 + j - o2 < w2) := by omega
        simp [hj, hx2, h2, h3]
      · simp [hj, hx2, h2]
  · simp [hj]

/-- Writing a bit-field that lies within the word keeps the word within its width. -/
theorem setBits_lt (bits o w x v : Nat) (hx : x < 2 ^ bits) (h : o + w ≤ bits) :
    setBits bits o w x v < 2 ^ bits := by
  apply Nat.lt_pow_two_of_testBit
  intro i hi
  rw [testBit_setBits]
  have hx2 : x.testBit i = false :=
    Nat.testBit_lt_two_pow (Nat.lt_of_lt_of_le hx (Nat.pow_le_pow_right (by decide) hi))
  by_cases h2 : i ≥ o
  · have h3 : ¬ (i - o < w) := by omega
    simp [hx2, h2, h3]
  · simp [hx2, h2]

/-- The place found for a member names a word of the structure, with its width. -/
theorem locate_word {f : Field} :
    ∀ {decl : List WordDecl} {b : BitField}, locate f decl = some b →
      ∃ d, decl[b.index]? = some d ∧ d.bits = b.bits := by
  intro decl
  induction decl with
  | nil => intro b h; simp [locate] at h
  | cons d ds ih =>
    intro b h
    simp only [locate] at h
    cases ho : offsetIn f d.members with
    | some ow =>
      obtain ⟨o, w⟩ := ow
      rw [ho] at h
      simp only [Option.some.injEq] at h
      subst h
      exact ⟨d, by simp, rfl⟩
    | none =>
      rw [ho] at h
      cases hl : locate f ds with
      | none => rw [hl] at h; simp at h
      | some c =>
        rw [hl] at h
        simp only [Option.some.injEq] at h
        subst h
        obtain ⟨d2, hd2, hbits⟩ := ih hl
        exact ⟨d2, by simpa using hd2, hbits⟩

theorem isImage_word :
    ∀ (decl : List WordDecl) (image : List Nat) (i : Nat) (d : WordDecl),
      isImage decl image = true → decl[i]? = some d →
      image.getD i 0 < 2 ^ d.bits ∧ i < image.length := by
  intro decl
  induction decl with
  | nil => intro image i d _ hd; simp at hd
  | cons e es ih =>
    intro image i d himg hd
    cases image with
    | nil => simp [isImage] at himg
    | cons w ws =>
      simp only [isImage, Bool.and_eq_true, decide_eq_true_eq] at himg
      cases i with
      | zero =>
        simp only [List.getElem?_cons_zero, Option.some.injEq] at hd
        subst hd
        exact ⟨by simpa using himg.1, by simp⟩
      | succ k =>
        simp only [List.getElem?_cons_succ] at hd
        obtain ⟨h1, h2⟩ := ih ws k d himg.2 hd
        exact ⟨by simpa using h1, by simpa using h2⟩

theorem isImage_set :
    ∀ (decl : List WordDecl) (image : List Nat) (i : Nat) (d : WordDecl) (x : Nat),
      isImage decl image = true → decl[i]? = some d → x < 2 ^ d.bits →
      isImage decl (image.set i x) = true := by
  intro decl
  induction decl with
  | nil => intro image i d x _ hd; simp at hd
  | cons e es ih =>
    intro image i d x himg hd hx
    cases image with
    | nil => simp [isImage] at himg
    | cons w ws =>
      simp only [isImage, Bool.and_eq_true, decide_eq_true_eq] at himg
      cases i with
      | zero =>
        simp only [List.getElem?_cons_zero, Option.some.injEq] at hd
        subst hd
        simp only [List.set_cons_zero, isImage, Bool.and_eq_true, decide_eq_true_eq]
        exact ⟨hx, himg.2⟩
      | succ k =>
        simp only [List.getElem?_cons_succ] at hd
        simp only [List.set_cons_succ, isImage, Bool.and_eq_true, decide_eq_true_eq]
        exact ⟨himg.1, ih ws k d x himg.2 hd hx⟩

theorem getD_set_same (l : List Nat) (i x : Nat) (h : i < l.length) :
    (l.set i x).getD i 0 = x := by
  simp [List.getD_eq_getElem?_getD, List.getElem?_set, h]

theorem getD_set_other (l : List Nat) (i j x : Nat) (h : i ≠ j) :
    (l.set i x).getD j 0 = l.getD j 0 := by
  simp [List.getD_eq_getElem?_getD, List.getElem?_set, h]

theorem BitField.read_write_same (b : BitField) (image : List Nat) (v : Nat)
    (hi : b.index < image.length) (hb : b.offset + b.width ≤ b.bits) :
    b.read (b.write image v) = v % 2 ^ b.width := by
  simp only [BitField.read, BitField.write, getD_set_same _ _ _ hi]
  exact getBits_setBits_same _ _ _ _ _ hb

theorem BitField.read_write_other (b c : BitField) (image : List Nat) (v : Nat)
    (hi : b.index < image.length) (hw : image.getD b.index 0 < 2 ^ b.bits)
    (h : c.index ≠ b.index ∨ c.offset + c.width ≤ b.offset ∨ b.offset + b.width ≤ c.offset) :
    c.read (b.write image v) = c.read image := by
  by_cases hidx : c.index = b.index
  · have hd : c.offset + c.width ≤ b.offset ∨ b.offset + b.width ≤ c.offset := by
      rcases h with h | h
      · exact absurd hidx h
      · exact h
    simp only [BitField.read, BitField.write, hidx, getD_set_same _ _ _ hi]
    exact getBits_setBits_other _ _ _ _ _ _ _ hw hd
  · simp only [BitField.read, BitField.write]
    rw [getD_set_other _ _ _ _ (fun h => hidx h.symm)]

theorem readField_writeField_same {decl : List WordDecl} (hwf : wellFormedLayout decl = true)
    {image : List Nat} (himg : isImage decl image = true) {f : Field} {b : BitField}
    (hb : locate f decl = some b) (v : Nat) :
    readField decl f (writeField decl f v image) = some (v % 2 ^ b.width) := by
  obtain ⟨d, hd, hbits⟩ := locate_word hb
  obtain ⟨_, hlen⟩ := isImage_word decl image b.index d himg hd
  simp only [readField, writeField, hb]
  rw [BitField.read_write_same b image v hlen ((wellFormedLayout_spec hwf).1 f b hb)]

theorem readField_writeField_other {decl : List WordDecl}
    (hwf : wellFormedLayout decl = true) {image : List Nat}
    (himg : isImage decl image = true) {f g : Field} (hne : g ≠ f) (v : Nat) :
    readField decl g (writeField decl f v image) = readField decl g image := by
  cases hb : locate f decl with
  | none => simp only [writeField, hb]
  | some b =>
    cases hc : locate g decl with
    | none => simp only [readField, hc]
    | some c =>
      obtain ⟨d, hd, hbits⟩ := locate_word hb
      obtain ⟨hword, hlen⟩ := isImage_word decl image b.index d himg hd
      rw [hbits] at hword
      simp only [readField, writeField, hb, hc]
      rw [BitField.read_write_other b c image v hlen hword]
      by_cases hidx : c.index = b.index
      · exact Or.inr ((wellFormedLayout_spec hwf).2 g f c b hc hb hne hidx)
      · exact Or.inl hidx

theorem isImage_writeField {decl : List WordDecl} (hwf : wellFormedLayout decl = true)
    {image : List Nat} (himg : isImage decl image = true) (f : Field) (v : Nat) :
    isImage decl (writeField decl f v image) = true := by
  cases hb : locate f decl with
  | none => simpa only [writeField, hb] using himg
  | some b =>
    obtain ⟨d, hd, hbits⟩ := locate_word hb
    obtain ⟨hword, _⟩ := isImage_word decl image b.index d himg hd
    simp only [writeField, hb, BitField.write]
    apply isImage_set decl image b.index d _ himg hd
    rw [hbits] at hword ⊢
    exact setBits_lt _ _ _ _ _ hword ((wellFormedLayout_spec hwf).1 f b hb)

/-- Writing members other than `f` does not change what is read for `f`. -/
theorem readField_foldl_of_not_mem {decl : List WordDecl}
    (hwf : wellFormedLayout decl = true) (record : Field → Nat) (f : Field) :
    ∀ (gs : List Field) (image : List Nat), isImage decl image = true → f ∉ gs →
      readField decl f (gs.foldl (fun img g => writeField decl g (record g) img) image)
        = readField decl f image := by
  intro gs
  induction gs with
  | nil => intro image _ _; rfl
  | cons g rest ih =>
    intro image himg hf
    simp only [List.foldl_cons]
    have hne : f ≠ g := fun h => hf (h ▸ List.mem_cons_self _ _)
    have hrest : f ∉ rest := fun h => hf (List.mem_cons_of_mem _ h)
    rw [ih _ (isImage_writeField hwf himg g (record g)) hrest]
    exact readField_writeField_other hwf himg hne (record g)

/-- After writing each member of a duplicate-free list once, every member of the list reads as
the value written for it. -/
theorem readField_foldl_of_mem {decl : List WordDecl} (hwf : wellFormedLayout decl = true)
    (record : Field → Nat) (f : Field) (b : BitField) (hb : locate f decl = some b)
    (hv : record f < 2 ^ b.width) :
    ∀ (gs : List Field) (image : List Nat), isImage decl image = true → gs.Nodup → f ∈ gs →
      readField decl f (gs.foldl (fun img g => writeField decl g (record g) img) image)
        = some (record f) := by
  intro gs
  induction gs with
  | nil => intro image _ _ hf; cases hf
  | cons g rest ih =>
    intro image himg hnd hf
    simp only [List.foldl_cons]
    rw [List.nodup_cons] at hnd
    have himg2 := isImage_writeField hwf himg g (record g)
    by_cases hfg : f = g
    · subst hfg
      rw [readField_foldl_of_not_mem hwf record f rest _ himg2 hnd.1,
        readField_writeField_same hwf himg hb, Nat.mod_eq_of_lt hv]
    · have hrest : f ∈ rest := by
        rcases List.mem_cons.mp hf with h | h
        · exact absurd h hfg
        · exact h
      exact ih _ himg2 hnd.2 hrest

theorem memberNames_V4_nodup : (memberNames RAWDataHeaderV4).Nodup := by
  decide

theorem mem_memberNames_V4 (f : Field) :
    (locate f RAWDataHeaderV4).isSome = true → f ∈ memberNames RAWDataHeaderV4 := by
  cases f <;> decide

/-- C15: in a `RAWDataHeaderV4` image of 16 words of 32 bits, writing a value that fits the
width of a member and reading the member back gives the value, and every other member reads
as before; and after all members have been written from a record whose values fit, every
member reads as its value in the record. -/
theorem C15_v4_round_trip (image : List Nat) (himg : isImage RAWDataHeaderV4 image = true)
    (record : Field → Nat)
    (hrec : ∀ f b, locate f RAWDataHeaderV4 = some b → record f < 2 ^ b.width) :
    (∀ f b v, locate f RAWDataHeaderV4 = some b → v < 2 ^ b.width →
      readField RAWDataHeaderV4 f (writeField RAWDataHeaderV4 f v image) = some v ∧
      (∀ g, g ≠ f →
        readField RAWDataHeaderV4 g (writeField RAWDataHeaderV4 f v image)
          = readField RAWDataHeaderV4 g image) ∧
      isImage RAWDataHeaderV4 (writeField RAWDataHeaderV4 f v image) = true) ∧
    (∀ f b, locate f RAWDataHeaderV4 = some b →
      readField RAWDataHeaderV4 f (emit RAWDataHeaderV4 record image) = some (record f)) := by
  constructor
  · intro f b v hb hv
    refine ⟨?_, ?_, isImage_writeField wellFormedLayout_V4 himg f v⟩
    · rw [readField_writeField_same wellFormedLayout_V4 himg hb, Nat.mod_eq_of_lt hv]
    · intro g hne
      exact readField_writeField_other wellFormedLayout_V4 himg hne v
  · intro f b hb
    exact readField_foldl_of_mem wellFormedLayout_V4 record f b hb (hrec f b hb)
      (memberNames RAWDataHeaderV4) image himg memberNames_V4_nodup
      (mem_memberNames_V4 f (by rw [hb]; rfl))

theorem exampleRecord_fits (f : Field) (b : BitField)
    (hb : locate f RAWDataHeaderV4 = some b) : exampleRecord f < 2 ^ b.width := by
  cases f <;> first
    | (cases hb; decide)
    | exact Nat.two_pow_pos b.width

/-- C15, at the default image and a record of a version 4 header of link 5: the emitted image
reads back as the record. -/
theorem C15_v4_round_trip_witness :
    isImage RAWDataHeaderV4 (defaultImage RAWDataHeaderV4) = true ∧
    readField RAWDataHeaderV4 Field.linkId
        (emit RAWDataHeaderV4 exampleRecord (defaultImage RAWDataHeaderV4)) = some 5 ∧
    readField RAWDataHeaderV4 Field.cruId
        (writeField RAWDataHeaderV4 Field.cruId 291 (defaultImage RAWDataHeaderV4))
      = some 291 ∧
    ((∀ f b v, locate f RAWDataHeaderV4 = some b → v < 2 ^ b.width →
      readField RAWDataHeaderV4 f
          (writeField RAWDataHeaderV4 f v (defaultImage RAWDataHeaderV4)) = some v ∧
      (∀ g, g ≠ f →
        readField RAWDataHeaderV4 g
            (writeField RAWDataHeaderV4 f v (defaultImage RAWDataHeaderV4))
          = readField RAWDataHeaderV4 g (defaultImage RAWDataHeaderV4)) ∧
      isImage RAWDataHeaderV4
          (writeField RAWDataHeaderV4 f v (defaultImage RAWDataHeaderV4)) = true) ∧
    (∀ f b, locate f RAWDataHeaderV4 = some b →
      readField RAWDataHeaderV4 f
          (emit RAWDataHeaderV4 exampleRecord (defaultImage RAWDataHeaderV4))
        = some (exampleRecord f))) :=
  ⟨by decide, by decide, by decide,
    C15_v4_round_trip (defaultImage RAWDataHeaderV4) (by decide) exampleRecord
      exampleRecord_fits⟩

/-! ## The slicer: grouping rule -/

/-- A block of a link without an entry, when the mapping already has `maxLinks` entries, is a
fatal error. -/
theorem DataBlockSlicer.appendBlock_overflow (self : DataBlockSlicer) (b : DataBlockContainer)
    (hnew : (self.entry (DataBlockSlicer.linkOf b)).isNone = true)
    (hfull : maxLinks ≤ self.partialSlices.length) : self.appendBlock b = none := by
  simp only [DataBlockSlicer.appendBlock]
  rw [if_pos ⟨hnew, hfull⟩]

theorem noPagesPool_new :
    MemoryPagesPool.new 4096 4 65536 100 none 0 12345 = Except.ok noPagesPool := by
  rfl

/-- When the size computation does not wrap, the constructed pool has a page exactly when one
page fits between `firstPageOffset` and the end of the base block. -/
theorem MemoryPagesPool.new_pages_pos_iff {ps n base bs : Nat} {cb : Option Nat} {off u : Nat}
    {pool : MemoryPagesPool} (h : MemoryPagesPool.new ps n base bs cb off u = Except.ok pool)
    (hno : ps * n + off < sizeMod) :
    1 ≤ pool.numberOfPages ↔ off + ps ≤ bs := by
  obtain ⟨hps, hn, hoff, hnum, _⟩ := MemoryPagesPool.new_ok h
  rw [Nat.mod_eq_of_lt hno] at hnum
  by_cases hgt : ps * n + off > bs
  · rw [if_pos hgt] at hnum
    rw [hnum]
    constructor
    · intro h1
      have h2 : (bs - off) / ps * ps ≤ bs - off := Nat.div_mul_le_self _ _
      have h3 : 1 * ps ≤ (bs - off) / ps * ps := Nat.mul_le_mul_right ps h1
      omega
    · intro h1
      rw [Nat.le_div_iff_mul_le hps]
      omega
  · rw [if_neg hgt] at hnum
    rw [hnum]
    have h1 : ps * 1 ≤ ps * n := Nat.mul_le_mul_left ps hn
    constructor
    · intro _; omega
    · intro _; exact hn

/-- C21: the constructor called with `pageSize = 4096`, `numberOfPages = 4`, `baseSize = 100`
and `firstPageOffset = 0` passes the check of lines 31-34 and then reduces the number of pages
to `100 / 4096 = 0` at line 39. It returns a pool with `getTotalNumberOfPages() = 0`, an empty
free list of capacity 0, `firstPageAddress` never assigned (it keeps its indeterminate value
`u`), `lastPageAddress = nullptr`, and whose `getPage` returns null. -/
theorem C21_constructor_accepts_zero_pages (base : Nat) (cb : Option Nat) (u : Nat) :
    ∃ pool, MemoryPagesPool.new 4096 4 base 100 cb 0 u = Except.ok pool ∧
      pool.getTotalNumberOfPages = 0 ∧ ¬ (1 ≤ pool.getTotalNumberOfPages) ∧
      pool.getNumberOfPagesAvailable = 0 ∧
      pool.firstPageAddress = u ∧ pool.lastPageAddress = 0 ∧
      pool.getPage = (0, pool) := by
  refine ⟨_, rfl, rfl, ?_, rfl, rfl, rfl, rfl⟩
  show ¬ (1 ≤ 0)
  decide

/-! ## The order of the free list -/

theorem MemoryPagesPool.rawRun_append :
    ∀ (c1 c2 : List RawCall) (p : MemoryPagesPool),
      p.rawRun (c1 ++ c2)
        = match p.rawRun c1 with
          | none => none
          | some (q, rs1) =>
            match q.rawRun c2 with
            | none => none
            | some (last, rs2) => some (last, rs1 ++ rs2) := by
  intro c1
  induction c1 with
  | nil =>
    intro c2 p
    simp only [List.nil_append, MemoryPagesPool.rawRun]
    cases p.rawRun c2 with
    | none => rfl
    | some lr => rfl
  | cons c cs ih =>
    intro c2 p
    simp only [List.cons_append, MemoryPagesPool.rawRun, List.append_eq]
    cases hstep : p.rawStep c with
    | none => rfl
    | some qr =>
      obtain ⟨q, r⟩ := qr
      simp only
      rw [ih c2 q]
      cases hq : q.rawRun cs with
      | none => rfl
      | some lr =>
        obtain ⟨l, rs⟩ := lr
        simp only
        cases hl : l.rawRun c2 with
        | none => rfl
        | some lr2 =>
          obtain ⟨l2, rs2⟩ := lr2
          simp only [List.append_assoc]

/-- Releasing valid pages while the free list has room appends them to it, in order. -/
theorem MemoryPagesPool.rawRun_releases :
    ∀ (pages : List Nat) (s : MemoryPagesPool),
      (∀ p ∈ pages, s.isPageValid p = true) →
      s.pagesAvailable.items.length + pages.length ≤ s.pagesAvailable.size →
      s.rawRun (pages.map RawCall.releasePage)
        = some ({ s with pagesAvailable :=
            ⟨s.pagesAvailable.size, s.pagesAvailable.items ++ pages⟩ }, []) := by
  intro pages
  induction pages with
  | nil =>
    intro s _ _
    obtain ⟨⟨size, items⟩, n, ps, b, bs, f, l, cb⟩ := s
    simp [MemoryPagesPool.rawRun]
  | cons p rest ih =>
    intro s hvalid hroom
    have hp : s.isPageValid p = true := hvalid p (List.mem_cons_self _ _)
    have hlt : s.pagesAvailable.items.length < s.pagesAvailable.size := by
      simp only [List.length_cons] at hroom
      omega
    have hstep : s.rawStep (RawCall.releasePage p)
        = some ({ s with pagesAvailable :=
            ⟨s.pagesAvailable.size, s.pagesAvailable.items ++ [p]⟩ }, none) := by
      simp [MemoryPagesPool.rawStep, MemoryPagesPool.releasePage, hp, Fifo.push_of_lt _ _ hlt]
    have hrest := ih
      { s with pagesAvailable := ⟨s.pagesAvailable.size, s.pagesAvailable.items ++ [p]⟩ }
      (fun q hq => by
        rw [MemoryPagesPool.isPageValid_congr rfl rfl rfl q]
        exact hvalid q (List.mem_cons_of_mem _ hq))
      (by
        simp only [List.length_append, List.length_singleton, List.length_cons,
          List.length_nil] at hroom ⊢
        omega)
    simp only [List.map_cons, MemoryPagesPool.rawRun, hstep]
    rw [hrest]
    simp

/-- As many `getPage` calls as the free list has entries return the entries in order. -/
theorem MemoryPagesPool.rawRun_getPages :
    ∀ (items : List Nat) (s : MemoryPagesPool), s.pagesAvailable.items = items →
      s.rawRun (List.replicate items.length RawCall.getPage)
        = some ({ s with pagesAvailable := ⟨s.pagesAvailable.size, []⟩ }, items) := by
  intro items
  induction items with
  | nil =>
    intro s hs
    obtain ⟨⟨size, its⟩, n, ps, b, bs, f, l, cb⟩ := s
    simp only at hs
    subst hs
    simp [MemoryPagesPool.rawRun]
  | cons x rest ih =>
    intro s hs
    obtain ⟨⟨size, its⟩, n, ps, b, bs, f, l, cb⟩ := s
    simp only at hs
    subst hs
    simp only [List.length_cons, List.replicate_succ, MemoryPagesPool.rawRun,
      MemoryPagesPool.rawStep, MemoryPagesPool.getPage, Fifo.pop]
    rw [ih _ rfl]
    simp

/-- The `getTotalNumberOfPages()` first `getPage` calls on a constructed pool return the pages
in the order of their index, page `i` being at the 64-bit address
`&baseAddress[firstPageOffset + i * pageSize]`, which is `baseAddress + firstPageOffset + i *
pageSize` when the pages lie inside the address space; and from any state of the pool with an
empty free list, releasing valid pages `p1, ..., pk`, with `k` at most the number of pages, and
then calling `getPage` `k` times returns `p1, ..., pk` in that order. -/
theorem MemoryPagesPool.free_list_is_fifo {ps n base bs : Nat} {cb : Option Nat} {off u : Nat}
    {pool : MemoryPagesPool} (h : MemoryPagesPool.new ps n base bs cb off u = Except.ok pool) :
    (pool.getPages pool.getTotalNumberOfPages).1
      = (List.range pool.getTotalNumberOfPages).map (pageAddress base off ps) ∧
    (base + off + pool.getTotalNumberOfPages * ps ≤ sizeMod →
      (pool.getPages pool.getTotalNumberOfPages).1
        = (List.range pool.getTotalNumberOfPages).map (fun i => base + off + i * ps)) ∧
    (∀ (s : MemoryPagesPool) (pages : List Nat),
      s.pagesAvailable.items = [] → s.pagesAvailable.size = pool.getTotalNumberOfPages →
      pages.length ≤ pool.getTotalNumberOfPages → (∀ p ∈ pages, s.isPageValid p = true) →
      ∃ last,
        s.rawRun (pages.map RawCall.releasePage ++ List.replicate pages.length RawCall.getPage)
          = some (last, pages) ∧
        last.pagesAvailable.items = []) := by
  obtain ⟨_, hitems, hlen, _⟩ := User.fresh_held h
  have hall := MemoryPagesPool.getPages_all pool.pagesAvailable.items pool rfl
  rw [hlen] at hall
  simp only [MemoryPagesPool.getTotalNumberOfPages]
  refine ⟨?_, ?_, ?_⟩
  · rw [hall, hitems]
  · intro hwrap
    rw [hall]
    exact MemoryPagesPool.new_items h hwrap
  · intro s pages hempty hsize hk hvalid
    have hrel := MemoryPagesPool.rawRun_releases pages s hvalid (by
      rw [hempty, hsize]
      simpa using hk)
    have hget := MemoryPagesPool.rawRun_getPages pages
      { s with pagesAvailable := ⟨s.pagesAvailable.size, s.pagesAvailable.items ++ pages⟩ }
      (by rw [hempty]; rfl)
    refine ⟨{ s with pagesAvailable := ⟨s.pagesAvailable.size, []⟩ }, ?_, rfl⟩
    rw [MemoryPagesPool.rawRun_append, hrel]
    simp only
    rw [hget]
    simp

/-- In a header structure whose first member is 8 bits wide, the first byte of an image in
memory is what is read for that member. -/
theorem imageBytes_head (d : WordDecl) (ds : List WordDecl) (f : Field)
    (rest : List (Field × Nat)) (hm : d.members = (f, 8) :: rest) (hbits : 8 ≤ d.bits)
    (image : List Nat) (himg : isImage (d :: ds) image = true) :
    (imageBytes (d :: ds) image).head? = readField (d :: ds) f image := by
  cases image with
  | nil => simp [isImage] at himg
  | cons w ws =>
    have hn : d.bits / 8 = (d.bits / 8 - 1) + 1 := by omega
    have hloc : locate f (d :: ds)
        = some { word := d.word, index := 0, bits := d.bits, offset := 0, width := 8 } := by
      simp [locate, offsetIn, hm]
    simp only [imageBytes, wordBytes, readField, hloc, BitField.read, getBits, mask]
    rw [hn, List.range_succ_eq_map]
    simp only [List.map_cons, List.cons_append, List.head?_cons, List.getD_cons_zero,
      Nat.mul_zero, Nat.shiftRight_zero]
    rw [Nat.and_pow_two_sub_one_eq_mod]

/-- C23: in `RAWDataHeaderV2`, `RAWDataHeaderV3` and `RAWDataHeaderV4` the member `version` is
bits 0-7 of the first word in memory (`word0` of V2, `word3` of V3 and V4), so the first byte
of every image on a little endian host is its version; the default headers carry 2, 3 and 4
there, which are pairwise distinct. -/
theorem C23_version_is_first_byte :
    locate Field.version RAWDataHeaderV2 = some ⟨Word.word0, 0, 64, 0, 8⟩ ∧
    locate Field.version RAWDataHeaderV3 = some ⟨Word.word3, 0, 32, 0, 8⟩ ∧
    locate Field.version RAWDataHeaderV4 = some ⟨Word.word3, 0, 32, 0, 8⟩ ∧
    (RAWDataHeaderV2.map WordDecl.word).head? = some Word.word0 ∧
    (RAWDataHeaderV3.map WordDecl.word).head? = some Word.word3 ∧
    (RAWDataHeaderV4.map WordDecl.word).head? = some Word.word3 ∧
    (∀ image, isImage RAWDataHeaderV2 image = true →
      (imageBytes RAWDataHeaderV2 image).head? = readField RAWDataHeaderV2 Field.version image) ∧
    (∀ image, isImage RAWDataHeaderV3 image = true →
      (imageBytes RAWDataHeaderV3 image).head? = readField RAWDataHeaderV3 Field.version image) ∧
    (∀ image, isImage RAWDataHeaderV4 image = true →
      (imageBytes RAWDataHeaderV4 image).head? = readField RAWDataHeaderV4 Field.version image) ∧
    (imageBytes RAWDataHeaderV2 (defaultImage RAWDataHeaderV2)).head? = some 2 ∧
    (imageBytes RAWDataHeaderV3 (defaultImage RAWDataHeaderV3)).head? = some 3 ∧
    (imageBytes RAWDataHeaderV4 (defaultImage RAWDataHeaderV4)).head? = some 4 ∧
    readField RAWDataHeaderV2 Field.version (defaultImage RAWDataHeaderV2) = some 2 ∧
    readField RAWDataHeaderV3 Field.version (defaultImage RAWDataHeaderV3) = some 3 ∧
    readField RAWDataHeaderV4 Field.version (defaultImage RAWDataHeaderV4) = some 4 ∧
    (2 : Nat) ≠ 3 ∧ (2 : Nat) ≠ 4 ∧ (3 : Nat) ≠ 4 ∧
    (imageBytes RAWDataHeaderV2 (defaultImage RAWDataHeaderV2)).length = 32 ∧
    (imageBytes RAWDataHeaderV3 (defaultImage RAWDataHeaderV3)).length = 64 ∧
    (imageBytes RAWDataHeaderV4 (defaultImage RAWDataHeaderV4)).length = 64 := by
  refine ⟨by decide, by decide, by decide, by decide, by decide, by decide, ?_, ?_, ?_,
    by decide, by decide, by decide, by decide, by decide, by decide, by decide, by decide,
    by decide, by decide, by decide, by decide⟩
  · intro image himg
    exact imageBytes_head _ _ Field.version _ rfl (by decide) image himg
  · intro image himg
    exact imageBytes_head _ _ Field.version _ rfl (by decide) image himg
  · intro image himg
    exact imageBytes_head _ _ Field.version _ rfl (by decide) image himg

end Readout
